import Mathlib

/-!
# Mafia2 — phase resolution engine

A shallow embedding of the resolution core of `src/app.js`
(`startGame`, `resolvePhase`, `resolveNight`, `resolveDay`, `checkWinCondition`).

Modelling conventions.

* The shared game record (`currentGame`, a snapshot of the store) is the structure `Game`.
  A store write `db.ref(...).update(updates)` is `dbUpdate`, applied to the record the
  function read.
* A JavaScript object used as a map is the list of its entries in iteration order.
  `players` is the list `Object.values(currentGame.players)`; a player is stored under the
  key equal to its `uid` field (`createLobby`, `joinLobby`, `addBot`), so the key is not
  repeated. Keys of the store are unique and non-empty: `Game.WellFormed`.
* The objects built by the tallies (`mafiaVotes`, `voteCounts`) are JavaScript objects keyed
  by target strings, modelled as the list of their own properties in creation order (`bump`).
  `Object.entries` lists the array-index keys first, in ascending numeric order, then the
  other keys in creation order (`entries`). Reading `counts[k]` for a key that is not an own
  property finds the members inherited from `Object.prototype` (`protoFunctions`,
  `__proto__`); the value stored then is a string, which the scan never counts
  (`TallyValue.text`).
* `currentGame` is the plain object the store listener delivers; the lists `players`,
  `actions`, `votes` are given in the order `Object.values` enumerates them.
* `Date.now()` is a parameter `now`: in each function `now 0`, `now 1`, ... are the readings
  taken at the successive places where the source calls `Date.now()`.
* A function whose body throws (`victim.name` with `victim` undefined) returns `none`;
  nothing has been written to the store at that point.
-/

namespace Mafia

/-- A player record of `currentGame.players`. `points` may be missing (`p.points || 0`). -/
structure Player where
  uid : String
  name : String
  role : String
  alive : Bool
  points : Option Nat
deriving DecidableEq

/-- A night action `{ role, target, timestamp }` written by `submitAction`. -/
structure NightAction where
  role : String
  target : String
  timestamp : Nat
deriving DecidableEq

/-- A log event `{ type, message, timestamp }`. -/
structure LogEvent where
  type : String
  message : String
  timestamp : Nat
deriving DecidableEq

/-- The game record, restricted to the fields the resolution core reads or writes. -/
structure Game where
  state : String
  players : List Player
  actions : List (String × NightAction)
  votes : List (String × String)
  events : List LogEvent
  phaseStartTime : Nat
  phaseDuration : Nat
  winner : Option String
deriving DecidableEq

/-- One entry of an `updates` object passed to `db.ref(...).update`. -/
inductive Update where
  | playerRole (uid : String) (role : String)
  | playerAlive (uid : String) (alive : Bool)
  | playerPoints (uid : String) (points : Nat)
  | events (events : List LogEvent)
  | actions (actions : List (String × NightAction))
  | votes (votes : List (String × String))
  | state (state : String)
  | phaseStartTime (t : Nat)
  | phaseDuration (d : Nat)
  | winner (winner : String)
deriving DecidableEq

/-- Rewrite the record stored under key `uid` in `players`. -/
def updatePlayer (uid : String) (f : Player → Player) (players : List Player) : List Player :=
  players.map (fun p => if p.uid = uid then f p else p)

/-- Apply one path of a multi-path update to the game record. -/
def applyUpdate (g : Game) : Update → Game
  | .playerRole uid r => { g with players := updatePlayer uid (fun p => { p with role := r }) g.players }
  | .playerAlive uid a => { g with players := updatePlayer uid (fun p => { p with alive := a }) g.players }
  | .playerPoints uid n => { g with players := updatePlayer uid (fun p => { p with points := some n }) g.players }
  | .events es => { g with events := es }
  | .actions acts => { g with actions := acts }
  | .votes vs => { g with votes := vs }
  | .state s => { g with state := s }
  | .phaseStartTime t => { g with phaseStartTime := t }
  | .phaseDuration d => { g with phaseDuration := d }
  | .winner w => { g with winner := some w }

/-- The store write `db.ref(games/id).update(updates)`: every path of `updates` is set;
a path assigned twice keeps its last value. -/
def dbUpdate (g : Game) (updates : List Update) : Game :=
  updates.foldl applyUpdate g

/-- The own property `currentGame.players[uid]`. The targets selected by the tallies are
never names of inherited members (`pickMax_not_inherited`), so for them this is the whole
lookup. -/
def lookupPlayer (players : List Player) (uid : String) : Option Player :=
  players.find? (fun p => p.uid = uid)

/-- The players map is an object of the store: its keys are unique and non-empty. -/
def Game.WellFormed (g : Game) : Prop :=
  (g.players.map Player.uid).Nodup ∧ ∀ p ∈ g.players, p.uid ≠ ""

instance (g : Game) : Decidable g.WellFormed := by
  unfold Game.WellFormed
  infer_instance

/-! ## Role assignment (`startGame`) -/

/-- The loop `while (roles.length < playerCount) roles.push('villager')`. -/
def fillVillagers (playerCount : Nat) (roles : List String) : List String :=
  if roles.length < playerCount then fillVillagers playerCount (roles ++ ["villager"]) else roles
termination_by playerCount - roles.length

/-- The role pool `roles` of `startGame`, before the shuffle. -/
def rolePool (playerCount : Nat) : List String :=
  let mafiaCount := max 1 (playerCount / 5)
  let roles := List.replicate mafiaCount "mafia"
  let roles := if playerCount ≥ 5 then roles ++ ["detective"] else roles
  let roles := if playerCount ≥ 6 then roles ++ ["doctor"] else roles
  fillVillagers playerCount roles

/-- The `forEach` of `startGame`: player number `idx` gets `roles[idx]` and `alive = true`.
`none` when `roles[idx]` is undefined (the store rejects an undefined value). -/
def assignUpdates : List Player → List String → Option (List Update)
  | [], _ => some []
  | _ :: _, [] => none
  | p :: ps, r :: rs =>
    (assignUpdates ps rs).map
      (fun us => Update.playerRole p.uid r :: Update.playerAlive p.uid true :: us)

/-- The function `startGame`; `shuffle` is the effect of `roles.sort(() => Math.random() - 0.5)`. -/
def startGame (shuffle : List String → List String) (now : Nat → Nat) (g : Game) : Option Game :=
  let playerCount := g.players.length
  if playerCount < 1 then some g
  else
    let roles := shuffle (rolePool playerCount)
    match assignUpdates g.players roles with
    | none => none
    | some updates =>
      some (dbUpdate g (updates ++
        [Update.state "night", Update.phaseStartTime (now 0), Update.phaseDuration 45000,
         Update.actions [], Update.votes [], Update.events []]))

/-! ## Tallies -/

/-- The function-valued members every plain object inherits from `Object.prototype`. -/
def protoFunctions : List String :=
  ["constructor", "hasOwnProperty", "isPrototypeOf", "propertyIsEnumerable", "toLocaleString",
   "toString", "valueOf", "__defineGetter__", "__defineSetter__", "__lookupGetter__",
   "__lookupSetter__"]

/-- All names found on `Object.prototype`: the accessor `__proto__` and the functions. -/
def inheritedNames : List String :=
  "__proto__" :: protoFunctions

/-- A value stored in a tally object: a number, or a string that is not a numeral
(`String(f) + "1"` for an inherited function `f`, and that string with more `"1"` appended). -/
inductive TallyValue where
  | count (n : Nat)
  | text
deriving DecidableEq

/-- The value `(v || 0) + 1` for an own value `v`. -/
def TallyValue.succ : TallyValue → TallyValue
  | .count n => .count (n + 1)
  | .text => .text

/-- The value `(counts[target] || 0) + 1` when `target` is not an own property: the read
finds an inherited function (the sum is a string) or nothing (the sum is 1). -/
def firstValue (target : String) : TallyValue :=
  if target ∈ protoFunctions then .text else .count 1

/-- The statement `counts[target] = (counts[target] || 0) + 1` on the own properties of
`counts`, listed in creation order. For `__proto__` the assignment reaches the inherited
setter with a string, which it ignores: no own property is created. -/
def bump : List (String × TallyValue) → String → List (String × TallyValue)
  | [], target => if target = "__proto__" then [] else [(target, firstValue target)]
  | (k, v) :: rest, target =>
    if k = target then (k, v.succ) :: rest else (k, v) :: bump rest target

/-- The tally object after `forEach(target => counts[target] = (counts[target] || 0) + 1)`. -/
def tally (targets : List String) : List (String × TallyValue) :=
  targets.foldl bump []

/-- The number a string of decimal digits denotes. -/
def decimalValue (s : String) : Nat :=
  s.data.foldl (fun acc c => 10 * acc + (c.toNat - 48)) 0

/-- The array index a property key denotes, if it is one: the key is the canonical decimal
numeral of an integer below 2^32 - 1. -/
def arrayIndex? (s : String) : Option Nat :=
  if decimalValue s < 4294967295 ∧ Nat.repr (decimalValue s) = s then some (decimalValue s)
  else none

/-- The key of the property is an array index. -/
def isIndexKey (e : String × TallyValue) : Bool :=
  (arrayIndex? e.1).isSome

/-- Ascending numeric order of two array-index properties. -/
def idxLe (a b : String × TallyValue) : Prop :=
  decimalValue a.1 ≤ decimalValue b.1

instance : DecidableRel idxLe := fun a b => by
  unfold idxLe
  infer_instance

instance : IsTotal (String × TallyValue) idxLe :=
  ⟨fun a b => Nat.le_total (decimalValue a.1) (decimalValue b.1)⟩

instance : IsTrans (String × TallyValue) idxLe :=
  ⟨fun a b c (h1 : decimalValue a.1 ≤ decimalValue b.1)
    (h2 : decimalValue b.1 ≤ decimalValue c.1) => Nat.le_trans h1 h2⟩

/-- The list `Object.entries(counts)` for the own properties `obj` in creation order:
array-index keys in ascending numeric order, then the other keys in creation order. -/
def entries (obj : List (String × TallyValue)) : List (String × TallyValue) :=
  (obj.filter isIndexKey).insertionSort idxLe ++ obj.filter (fun e => !isIndexKey e)

/-- One step of the scan `if (votes > maxVotes) { maxVotes = votes; target = key }`; a
string value compares as NaN, so the test is false. -/
def maxStep (acc : Option String × Nat) (e : String × TallyValue) : Option String × Nat :=
  match e.2 with
  | .count n => if n > acc.2 then (some e.1, n) else acc
  | .text => acc

/-- The scan over `Object.entries(counts)`, from `(null, 0)`: the pair (target, maxVotes). -/
def pickMax (es : List (String × TallyValue)) : Option String × Nat :=
  es.foldl maxStep (none, 0)

/-- Truthiness of a value that is `null` or a string. -/
def truthy : Option String → Bool
  | none => false
  | some s => s ≠ ""

/-- The targets of `mafiaActions`, in the order `mafiaActions.forEach` visits them. -/
def mafiaTargets (g : Game) : List String :=
  ((g.actions.map Prod.snd).filter (fun a => a.role = "mafia")).map NightAction.target

/-- The `mafiaTarget` of `resolveNight`. -/
def mafiaTargetOf (g : Game) : Option String :=
  (pickMax (entries (tally (mafiaTargets g)))).1

/-- The `doctorTarget` of `resolveNight` (`doctorAction?.target`). -/
def doctorTargetOf (g : Game) : Option String :=
  ((g.actions.map Prod.snd).find? (fun a => a.role = "doctor")).map NightAction.target

/-- The `detectiveTarget` of `resolveNight` (`detectiveAction?.target`). -/
def detectiveTargetOf (g : Game) : Option String :=
  ((g.actions.map Prod.snd).find? (fun a => a.role = "detective")).map NightAction.target

/-- The `name` of the member of `Object.prototype` that `currentGame.players[uid]` finds when
`uid` is not an own key: `Object` for `constructor`, the key itself for the other functions,
none for `__proto__` (an object without a `name`) and for every other key. -/
def inheritedMemberName (uid : String) : Option String :=
  if uid = "constructor" then some "Object"
  else if uid ∈ protoFunctions then some uid
  else none

/-- The string `currentGame.players[uid]?.name` prints as in a template. -/
def lookupName (players : List Player) (uid : String) : String :=
  match lookupPlayer players uid with
  | some p => p.name
  | none => (inheritedMemberName uid).getD "undefined"

/-- The detective event of `resolveNight`, pushed when `detectiveTarget` is truthy. An
inherited member has no `role`, so only an own record can be reported as mafia. -/
def detectiveEvents (now : Nat → Nat) (g : Game) : List LogEvent :=
  match detectiveTargetOf g with
  | none => []
  | some dt =>
    if dt ≠ "" then
      let isMafia := decide ((lookupPlayer g.players dt).map Player.role = some "mafia")
      let targetName := lookupName g.players dt
      [{ type := "info",
         message := "🔍 Detective checked " ++ targetName ++ ": " ++
           (if isMafia then "🔴 MAFIA!" else "🟢 Innocent"),
         timestamp := now 1 }]
    else []

/-! ## Phase resolution -/

/-- The function `resolveNight`. `none`: the body threw at `victim.name`. -/
def resolveNight (now : Nat → Nat) (g : Game) : Option Game :=
  let mafiaTarget := mafiaTargetOf g
  let doctorTarget := doctorTargetOf g
  let tail : List Update :=
    [Update.actions [], Update.state "day", Update.phaseStartTime (now 2),
     Update.phaseDuration 60000]
  if truthy mafiaTarget then
    if mafiaTarget = doctorTarget then
      let events := g.events ++
        [{ type := "save", message := "💉 Someone was saved by the Doctor!", timestamp := now 0 }]
      some (dbUpdate g (Update.events (events ++ detectiveEvents now g) :: tail))
    else
      match lookupPlayer g.players (mafiaTarget.getD "") with
      | none => none
      | some victim =>
        let events := g.events ++
          [{ type := "death",
             message := "💀 " ++ victim.name ++ " was eliminated by the Mafia!",
             timestamp := now 0 }]
        some (dbUpdate g (Update.playerAlive (mafiaTarget.getD "") false ::
          Update.events (events ++ detectiveEvents now g) :: tail))
  else
    let events := g.events ++
      [{ type := "info", message := "🌙 The night was quiet...", timestamp := now 0 }]
    some (dbUpdate g (Update.events (events ++ detectiveEvents now g) :: tail))

/-- The pair (`eliminated`, `maxVotes`) of `resolveDay`. -/
def dayTally (g : Game) : Option String × Nat :=
  pickMax (entries (tally (g.votes.map Prod.snd)))

/-- The function `resolveDay`. `none`: the body threw at `victim.name`. -/
def resolveDay (now : Nat → Nat) (g : Game) : Option Game :=
  let eliminated := (dayTally g).1
  let maxVotes := (dayTally g).2
  let tail : List Update :=
    [Update.votes [], Update.state "night", Update.phaseStartTime (now 1),
     Update.phaseDuration 45000]
  if truthy eliminated && decide (maxVotes > 0) then
    match lookupPlayer g.players (eliminated.getD "") with
    | none => none
    | some victim =>
      let events := g.events ++
        [{ type := "death",
           message := "⚖️ " ++ victim.name ++ " (" ++ victim.role ++ ") was voted out!",
           timestamp := now 0 }]
      some (dbUpdate g (Update.playerAlive (eliminated.getD "") false ::
        Update.events events :: tail))
  else
    let events := g.events ++
      [{ type := "info", message := "⚖️ No one was eliminated. (No votes or tie)",
         timestamp := now 0 }]
    some (dbUpdate g (Update.events events :: tail))

/-- The function `resolvePhase`. -/
def resolvePhase (isHost : Bool) (now : Nat → Nat) (g : Game) : Option Game :=
  if !isHost then some g
  else if g.state = "night" then resolveNight now g
  else resolveDay now g

/-! ## Win evaluation -/

/-- The list `aliveMafia` of `checkWinCondition`. -/
def aliveMafia (players : List Player) : List Player :=
  (players.filter (fun p => p.alive)).filter (fun p => p.role = "mafia")

/-- The list `aliveVillagers` of `checkWinCondition`. -/
def aliveVillagers (players : List Player) : List Player :=
  (players.filter (fun p => p.alive)).filter (fun p => p.role ≠ "mafia")

/-- The variable `winner` of `checkWinCondition` (`none` is `null`). -/
def winnerOf (players : List Player) : Option String :=
  if (aliveMafia players).length = 0 then some "villagers"
  else if (aliveMafia players).length ≥ (aliveVillagers players).length then some "mafia"
  else none

/-- The point awards written by `checkWinCondition` for winner `w`. -/
def awardUpdates (players : List Player) (w : String) : List Update :=
  if w = "villagers" then
    (aliveVillagers players).map (fun p => Update.playerPoints p.uid (p.points.getD 0 + 10)) ++
    (players.filter (fun p => !p.alive && decide (p.role ≠ "mafia"))).map
      (fun p => Update.playerPoints p.uid (p.points.getD 0 + 5))
  else
    (aliveMafia players).map (fun p => Update.playerPoints p.uid (p.points.getD 0 + 15))

/-- The function `checkWinCondition`. -/
def checkWinCondition (isHost : Bool) (g : Game) : Game :=
  if !isHost then g
  else
    match winnerOf g.players with
    | none => g
    | some w =>
      if w ≠ "" then
        dbUpdate g (awardUpdates g.players w ++ [Update.winner w, Update.state "results"])
      else g

/-! ## Sequences of resolution steps -/

/-- One resolution step, together with what the clients submitted before it ran. -/
inductive Op where
  | night (now : Nat → Nat) (actions : List (String × NightAction))
  | day (now : Nat → Nat) (votes : List (String × String))
  | checkWin (isHost : Bool)

/-- Run one step on the store; a step that throws writes nothing. -/
def runOp (g : Game) : Op → Game
  | .night now acts =>
    (resolveNight now { g with actions := acts }).getD { g with actions := acts }
  | .day now vs => (resolveDay now { g with votes := vs }).getD { g with votes := vs }
  | .checkWin isHost => checkWinCondition isHost g

/-- Run a finite sequence of steps. -/
def runOps (g : Game) (ops : List Op) : Game :=
  ops.foldl runOp g

/-- The `alive` flag stored for `uid`, if that player exists. -/
def aliveOf (g : Game) (uid : String) : Option Bool :=
  (lookupPlayer g.players uid).map Player.alive

/-! ## Specification-level notions -/

/-- `T` carries the most entries of `targets`, and no target with as many entries is seen
before `T` in `targets`. -/
def FirstPlurality (targets : List String) (T : String) : Prop :=
  T ∈ targets ∧ (∀ u ∈ targets, targets.count u ≤ targets.count T) ∧
    ∀ u ∈ targets, targets.count u = targets.count T →
      targets.indexOf T ≤ targets.indexOf u

instance (targets : List String) (T : String) : Decidable (FirstPlurality targets T) := by
  unfold FirstPlurality
  infer_instance

/-- Position of the key `u` in the enumeration of the tally object built from `targets`:
array indices come first, in ascending numeric order, then the other keys in the order they
are first seen in `targets`. -/
def enumRank (targets : List String) (u : String) : Nat :=
  match arrayIndex? u with
  | some i => i
  | none => 4294967295 + targets.indexOf u

/-- `T` is a target that is not the name of a member of `Object.prototype`, carries at least
as many entries of `targets` as every other such target, and no such target with as many
entries comes before `T` in the enumeration of the tally object. -/
def Winner (targets : List String) (T : String) : Prop :=
  T ∈ targets ∧ T ∉ inheritedNames ∧
    (∀ u ∈ targets, u ∉ inheritedNames → targets.count u ≤ targets.count T) ∧
    ∀ u ∈ targets, u ∉ inheritedNames → targets.count u = targets.count T →
      enumRank targets T ≤ enumRank targets u

instance (targets : List String) (T : String) : Decidable (Winner targets T) := by
  unfold Winner
  infer_instance

/-- The value the tally built from `l` holds for the key `k`. -/
def tallyValueOf (l : List String) (k : String) : TallyValue :=
  if k ∈ protoFunctions then .text else .count (l.count k)

/-- `s` occurs inside `msg`. -/
def Contains (msg s : String) : Prop :=
  ∃ pre post : String, msg = pre ++ s ++ post

/-- Number of alive players with role mafia. -/
def aliveMafiaCount (players : List Player) : Nat :=
  players.countP (fun p => p.alive && decide (p.role = "mafia"))

/-- Number of alive players whose role is not mafia. -/
def aliveOtherCount (players : List Player) : Nat :=
  players.countP (fun p => p.alive && decide (p.role ≠ "mafia"))

/-- The points a player holds after the awards for winner `w`. -/
def awarded (w : String) (p : Player) : Player :=
  if w = "villagers" then
    if p.role = "mafia" then p
    else { p with points := some (p.points.getD 0 + (if p.alive then 10 else 5)) }
  else
    if p.alive ∧ p.role = "mafia" then { p with points := some (p.points.getD 0 + 15) }
    else p

/-- Number of special roles (mafia, detective, doctor) pushed for `n` players. -/
def specialCount (n : Nat) : Nat :=
  max 1 (n / 5) + (if 5 ≤ n then 1 else 0) + (if 6 ≤ n then 1 else 0)

/-- Effect of one update path on a single player record. -/
def applyToPlayer (p : Player) : Update → Player
  | .playerRole uid r => if p.uid = uid then { p with role := r } else p
  | .playerAlive uid a => if p.uid = uid then { p with alive := a } else p
  | .playerPoints uid n => if p.uid = uid then { p with points := some n } else p
  | _ => p

/-- An update path that does not set an `alive` flag to true. -/
def NoRevive : Update → Prop
  | .playerAlive _ a => a = false
  | _ => True

/-- Keys of a tally object after one more target is counted. -/
def addKey (acc : List String) (x : String) : List String :=
  if x ∈ acc then acc else acc ++ [x]

/-- Distinct targets in the order they are first seen. -/
def firsts (l : List String) : List String :=
  l.foldl addKey []

/-- Own keys of the tally object built from `l`, in creation order. -/
def keysOf (l : List String) : List String :=
  (firsts l).filter (fun k => k ≠ "__proto__")

/-! ## Example games -/

/-- Six players with the roles `startGame` deals to six. -/
def sixPlayers : List Player :=
  [⟨"u1", "Ann", "mafia", true, some 0⟩, ⟨"u2", "Bob", "detective", true, some 0⟩,
   ⟨"u3", "Cid", "doctor", true, some 0⟩, ⟨"u4", "Dee", "villager", true, some 0⟩,
   ⟨"u5", "Eve", "villager", true, none⟩, ⟨"u6", "Fay", "villager", true, some 0⟩]

/-- A night game over `sixPlayers` with the given submitted actions. -/
def nightGame (actions : List (String × NightAction)) : Game :=
  { state := "night", players := sixPlayers, actions := actions, votes := [], events := [],
    phaseStartTime := 0, phaseDuration := 45000, winner := none }

/-- A day game over `sixPlayers` with the given submitted votes. -/
def dayGame (votes : List (String × String)) : Game :=
  { state := "day", players := sixPlayers, actions := [], votes := votes, events := [],
    phaseStartTime := 0, phaseDuration := 60000, winner := none }

/-- The mafia targets `u4` and the doctor protects `u4`. -/
def saveActions : List (String × NightAction) :=
  [("u1", ⟨"mafia", "u4", 1⟩), ("u3", ⟨"doctor", "u4", 2⟩)]

/-- Mafia and doctor actions whose target is the empty string. -/
def emptyTargetActions : List (String × NightAction) :=
  [("u1", ⟨"mafia", "", 1⟩), ("u3", ⟨"doctor", "", 2⟩)]

/-- The mafia targets `u4`; the detective checks `u1` and the doctor protects `u1`. -/
def killActions : List (String × NightAction) :=
  [("u1", ⟨"mafia", "u4", 1⟩), ("u2", ⟨"detective", "u1", 2⟩), ("u3", ⟨"doctor", "u1", 3⟩)]

/-- Players whose keys include an array index and the name of an inherited member, in the
order `Object.values` lists them (the array index first). -/
def oddPlayers : List Player :=
  [⟨"9", "Nin", "villager", true, some 0⟩, ⟨"u1", "Ann", "mafia", true, some 0⟩,
   ⟨"u2", "Bob", "mafia", true, some 0⟩, ⟨"u4", "Dee", "villager", true, some 0⟩,
   ⟨"u5", "Eve", "villager", true, some 0⟩, ⟨"constructor", "Con", "villager", true, some 0⟩]

/-- A night game over `oddPlayers` with the given submitted actions. -/
def oddNightGame (actions : List (String × NightAction)) : Game :=
  { state := "night", players := oddPlayers, actions := actions, votes := [], events := [],
    phaseStartTime := 0, phaseDuration := 45000, winner := none }

/-- A day game over `oddPlayers` with the given submitted votes. -/
def oddDayGame (votes : List (String × String)) : Game :=
  { state := "day", players := oddPlayers, actions := [], votes := votes, events := [],
    phaseStartTime := 0, phaseDuration := 60000, winner := none }

/-- Two mafia actions, the first on `u4`, the second on the array-index uid `9`. -/
def indexTieActions : List (String × NightAction) :=
  [("u1", ⟨"mafia", "u4", 1⟩), ("u2", ⟨"mafia", "9", 2⟩)]

/-- Two mafia actions on the uid `constructor`. -/
def inheritedActions : List (String × NightAction) :=
  [("u1", ⟨"mafia", "constructor", 1⟩), ("u2", ⟨"mafia", "constructor", 2⟩)]

/-- Two votes, the first for `u5`, the second for the array-index uid `9`. -/
def indexTieVotes : List (String × String) :=
  [("u1", "u5"), ("u2", "9")]

/-- Two votes for the uid `constructor`. -/
def inheritedVotes : List (String × String) :=
  [("u1", "constructor"), ("u2", "constructor")]

/-- Two votes each for `u5` and the array-index uid `9`, the first of them for `u5`, and one
vote for the uid `constructor`; the voter `9` is listed first by `Object.values`. -/
def oddVotes : List (String × String) :=
  [("9", "constructor"), ("u1", "u5"), ("u2", "9"), ("u4", "9"), ("u5", "u5")]

/-- Three votes for `u4` and one for `u5`. -/
def majorityVotes : List (String × String) :=
  [("u1", "u5"), ("u2", "u4"), ("u3", "u4"), ("u5", "u4")]

/-- Two votes for `u4` and two for `u5`, the first vote going to `u4`. -/
def tiedVotes : List (String × String) :=
  [("u1", "u4"), ("u2", "u5"), ("u3", "u4"), ("u6", "u5")]

/-- A mafia action whose target `gone` is not a key of `players`. -/
def ghostActions : List (String × NightAction) :=
  [("u1", ⟨"mafia", "gone", 1⟩)]

/-- A single vote whose target `gone` is not a key of `players`. -/
def ghostVotes : List (String × String) :=
  [("u2", "gone")]

/-- A finished game: state `results`, winner set, the last mafia dead. -/
def finishedGame : Game :=
  { state := "results",
    players := [⟨"u1", "Ann", "mafia", false, some 0⟩, ⟨"u2", "Bob", "villager", true, some 10⟩],
    actions := [], votes := [], events := [⟨"death", "⚖️ Ann (mafia) was voted out!", 3⟩],
    phaseStartTime := 3, phaseDuration := 45000, winner := some "villagers" }

/-- A game still in the lobby. -/
def lobbyGame : Game :=
  { state := "lobby",
    players := [⟨"u1", "Ann", "", true, some 0⟩, ⟨"u2", "Bob", "", true, some 0⟩],
    actions := [], votes := [], events := [],
    phaseStartTime := 0, phaseDuration := 0, winner := none }

/-- One alive mafia against one alive villager, one dead detective. -/
def parityGame : Game :=
  { state := "day",
    players := [⟨"u1", "Ann", "mafia", true, some 15⟩, ⟨"u2", "Bob", "villager", true, none⟩,
                ⟨"u3", "Cid", "detective", false, some 5⟩],
    actions := [], votes := [], events := [],
    phaseStartTime := 0, phaseDuration := 60000, winner := none }

/-- The last mafia is dead; one villager alive, one doctor dead without a points field. -/
def villagersWinGame : Game :=
  { state := "night",
    players := [⟨"u1", "Ann", "mafia", false, some 15⟩, ⟨"u2", "Bob", "villager", true, some 3⟩,
                ⟨"u3", "Cid", "doctor", false, none⟩],
    actions := [], votes := [], events := [],
    phaseStartTime := 0, phaseDuration := 45000, winner := none }

/-- A shuffle of the pool for six players. -/
def shuffledSix : List String :=
  ["villager", "doctor", "mafia", "villager", "detective", "villager"]

/-- A shuffle of the pool for two players. -/
def shuffledTwo : List String :=
  ["villager", "mafia"]

/-! ## Shared lemmas on store updates -/

theorem applyToPlayer_uid (p : Player) (u : Update) : (applyToPlayer p u).uid = p.uid := by
  cases u <;> simp only [applyToPlayer] <;> split <;> rfl

theorem foldl_applyToPlayer_uid (us : List Update) (p : Player) :
    (us.foldl applyToPlayer p).uid = p.uid := by
  induction us generalizing p with
  | nil => rfl
  | cons u us ih => rw [List.foldl_cons, ih, applyToPlayer_uid]

theorem applyUpdate_players (g : Game) (u : Update) :
    (applyUpdate g u).players = g.players.map (fun p => applyToPlayer p u) := by
  cases u <;> simp [applyUpdate, applyToPlayer, updatePlayer]

theorem dbUpdate_players (us : List Update) (g : Game) :
    (dbUpdate g us).players = g.players.map (fun p => us.foldl applyToPlayer p) := by
  induction us generalizing g with
  | nil => simp [dbUpdate]
  | cons u us ih =>
    have h := ih (applyUpdate g u)
    simp only [dbUpdate, List.foldl_cons] at h ⊢
    rw [h, applyUpdate_players, List.map_map]
    rfl

/-! ## Role assignment -/

theorem fillVillagers_eq (n : Nat) (roles : List String) :
    fillVillagers n roles = roles ++ List.replicate (n - roles.length) "villager" := by
  generalize h : n - roles.length = k
  induction k generalizing roles with
  | zero =>
    rw [fillVillagers, if_neg (by omega)]
    simp
  | succ k ih =>
    rw [fillVillagers, if_pos (by omega), ih _ (by simp; omega)]
    simp [List.replicate_succ]

theorem specialCount_le (n : Nat) (hn : 1 ≤ n) : specialCount n ≤ n := by
  unfold specialCount
  split_ifs <;> omega

theorem rolePool_eq (n : Nat) :
    rolePool n = List.replicate (max 1 (n / 5)) "mafia" ++
      (if 5 ≤ n then ["detective"] else []) ++ (if 6 ≤ n then ["doctor"] else []) ++
      List.replicate (n - specialCount n) "villager" := by
  unfold rolePool specialCount
  simp only [fillVillagers_eq, ge_iff_le]
  split_ifs <;> simp [Nat.add_assoc]

theorem assignUpdates_isSome (ps : List Player) (rs : List String)
    (h : ps.length ≤ rs.length) : ∃ us, assignUpdates ps rs = some us := by
  induction ps generalizing rs with
  | nil => exact ⟨[], rfl⟩
  | cons p ps ih =>
    cases rs with
    | nil => simp at h
    | cons r rs =>
      obtain ⟨us, hus⟩ := ih rs (by simpa using h)
      exact ⟨Update.playerRole p.uid r :: Update.playerAlive p.uid true :: us,
        by simp [assignUpdates, hus]⟩

theorem assignUpdates_other (ps : List Player) (rs : List String) (us : List Update)
    (h : assignUpdates ps rs = some us) (q : Player) (hq : q.uid ∉ ps.map Player.uid) :
    us.foldl applyToPlayer q = q := by
  induction ps generalizing rs us with
  | nil =>
    simp [assignUpdates] at h
    subst h; rfl
  | cons p ps ih =>
    cases rs with
    | nil => simp [assignUpdates] at h
    | cons r rs =>
      simp only [assignUpdates, Option.map_eq_some'] at h
      obtain ⟨us', hus', rfl⟩ := h
      simp only [List.map_cons, List.mem_cons, not_or] at hq
      simp only [List.foldl_cons, applyToPlayer, if_neg hq.1]
      exact ih rs us' hus' hq.2

theorem assignUpdates_players (ps : List Player) (rs : List String) (us : List Update)
    (h : assignUpdates ps rs = some us) (hnd : (ps.map Player.uid).Nodup) :
    ps.map (fun q => us.foldl applyToPlayer q) =
      List.zipWith (fun p r => { p with role := r, alive := true }) ps rs := by
  induction ps generalizing rs us with
  | nil => simp
  | cons p ps ih =>
    cases rs with
    | nil => simp [assignUpdates] at h
    | cons r rs =>
      simp only [assignUpdates, Option.map_eq_some'] at h
      obtain ⟨us', hus', rfl⟩ := h
      simp only [List.map_cons, List.nodup_cons] at hnd
      simp only [List.map_cons, List.zipWith_cons_cons, List.foldl_cons, applyToPlayer,
        if_true]
      congr 1
      · exact assignUpdates_other ps rs us' hus' _ hnd.1
      · rw [← ih rs us' hus' hnd.2]
        apply List.map_congr_left
        intro q hq
        have hne : q.uid ≠ p.uid := by
          intro e
          exact hnd.1 (e ▸ List.mem_map_of_mem Player.uid hq)
        simp [if_neg hne]

/-- C1. For every player count N ≥ 1 and every permutation `roles` of the pool built by
`startGame` (the pool itself included), `roles` has exactly N entries, of which
max(1, ⌊N/5⌋) are mafia, one is the detective iff N ≥ 5, one is the doctor iff N ≥ 6 and all
the others are villagers; the special roles never exceed N, and `startGame` with that shuffle
succeeds and gives player number i exactly the role `roles[i]` (and `alive = true`). -/
theorem startGame_role_pool (N : Nat) (hN : 1 ≤ N) (roles : List String)
    (hperm : roles.Perm (rolePool N)) :
    roles.length = N ∧
    roles.count "mafia" = max 1 (N / 5) ∧
    roles.count "detective" = (if 5 ≤ N then 1 else 0) ∧
    roles.count "doctor" = (if 6 ≤ N then 1 else 0) ∧
    roles.count "villager" =
      N - (max 1 (N / 5) + (if 5 ≤ N then 1 else 0) + (if 6 ≤ N then 1 else 0)) ∧
    (∀ r ∈ roles, r = "mafia" ∨ r = "detective" ∨ r = "doctor" ∨ r = "villager") ∧
    max 1 (N / 5) + (if 5 ≤ N then 1 else 0) + (if 6 ≤ N then 1 else 0) ≤ N ∧
    (∀ (shuffle : List String → List String) (now : Nat → Nat) (g : Game),
      g.players.length = N → (g.players.map Player.uid).Nodup →
      shuffle (rolePool N) = roles →
      ∃ g', startGame shuffle now g = some g' ∧ g'.players.length = N ∧
        g'.players =
          List.zipWith (fun p r => { p with role := r, alive := true }) g.players roles) := by
  have hle := specialCount_le N hN
  have hlen : roles.length = N := by
    rw [hperm.length_eq, rolePool_eq]
    unfold specialCount at hle ⊢
    split_ifs at hle ⊢ <;> simp <;> omega
  refine ⟨hlen, ?_, ?_, ?_, ?_, ?_, hle, ?_⟩
  · rw [hperm.count_eq, rolePool_eq]
    split_ifs <;> simp [List.count_replicate, List.count_cons]
  · rw [hperm.count_eq, rolePool_eq]
    split_ifs <;> simp [List.count_replicate, List.count_cons]
  · rw [hperm.count_eq, rolePool_eq]
    split_ifs <;> simp [List.count_replicate, List.count_cons]
  · rw [hperm.count_eq, rolePool_eq]
    unfold specialCount
    split_ifs <;> simp [List.count_replicate, List.count_cons]
  · intro r hr
    rw [hperm.mem_iff, rolePool_eq] at hr
    simp only [List.mem_append, List.mem_replicate] at hr
    rcases hr with ((⟨_, h⟩ | h) | h) | ⟨_, h⟩
    · exact Or.inl h
    · split_ifs at h <;> simp at h
      exact Or.inr (Or.inl h)
    · split_ifs at h <;> simp at h
      exact Or.inr (Or.inr (Or.inl h))
    · exact Or.inr (Or.inr (Or.inr h))
  · intro shuffle now g hg hnd hsh
    obtain ⟨us, hus⟩ := assignUpdates_isSome g.players roles (by omega)
    have hpl : (dbUpdate g (us ++
        [Update.state "night", Update.phaseStartTime (now 0), Update.phaseDuration 45000,
         Update.actions [], Update.votes [], Update.events []])).players =
        List.zipWith (fun p r => { p with role := r, alive := true }) g.players roles := by
      rw [dbUpdate_players, ← assignUpdates_players g.players roles us hus hnd]
      apply List.map_congr_left
      intro q _
      simp [List.foldl_append, applyToPlayer]
    refine ⟨_, ?_, ?_, hpl⟩
    · simp only [startGame, hg, hsh, hus]
      rw [if_neg (by omega)]
    · rw [hpl, List.length_zipWith, hg, hlen, Nat.min_self]

theorem startGame_role_pool_witness :
    shuffledSix.length = 6 ∧ shuffledSix.count "mafia" = 1 ∧
    shuffledSix.count "detective" = 1 ∧ shuffledSix.count "doctor" = 1 ∧
    shuffledSix.count "villager" = 3 ∧
    ∃ g', startGame (fun _ => shuffledSix) (fun _ => 7) (nightGame []) = some g' ∧
      g'.players.length = 6 ∧
      g'.players = List.zipWith (fun p r => { p with role := r, alive := true })
        (nightGame []).players shuffledSix :=
  have hp : shuffledSix.Perm (rolePool 6) := by
    rw [rolePool_eq]
    decide
  have h := startGame_role_pool 6 (by decide) shuffledSix hp
  ⟨h.1, h.2.1, h.2.2.1, h.2.2.2.1, h.2.2.2.2.1,
    h.2.2.2.2.2.2.2 (fun _ => shuffledSix) (fun _ => 7) (nightGame []) rfl (by decide) rfl⟩

/-! ## Tallies: the tally object and its enumeration -/

theorem firsts_snoc (l : List String) (x : String) :
    firsts (l ++ [x]) = addKey (firsts l) x := by
  simp [firsts, List.foldl_append]

theorem tally_snoc (l : List String) (x : String) :
    tally (l ++ [x]) = bump (tally l) x := by
  simp [tally, List.foldl_append]

theorem mem_firsts (l : List String) : ∀ k : String, k ∈ firsts l ↔ k ∈ l := by
  induction l using List.reverseRecOn with
  | nil => simp [firsts]
  | append_singleton l x ih =>
    intro k
    rw [firsts_snoc, addKey]
    split_ifs with h
    · simp only [List.mem_append, List.mem_singleton, ih]
      constructor
      · exact Or.inl
      · rintro (hk | rfl)
        · exact hk
        · exact (ih k).mp h
    · simp [ih]

theorem firsts_nodup (l : List String) : (firsts l).Nodup := by
  induction l using List.reverseRecOn with
  | nil => simp [firsts]
  | append_singleton l x ih =>
    rw [firsts_snoc, addKey]
    split_ifs with h
    · exact ih
    · exact List.Nodup.append ih (List.nodup_singleton x) (by simpa using h)

theorem bump_proto (ks : List String) (v : String → TallyValue) (h : "__proto__" ∉ ks) :
    bump (ks.map (fun k => (k, v k))) "__proto__" = ks.map (fun k => (k, v k)) := by
  induction ks with
  | nil => simp [bump]
  | cons k ks ih =>
    simp only [List.mem_cons, not_or] at h
    have hk : k ≠ "__proto__" := fun e => h.1 e.symm
    simp only [List.map_cons, bump, if_neg hk, ih h.2]

theorem bump_map (ks : List String) (v : String → TallyValue) (x : String) (h : ks.Nodup)
    (hx : x ≠ "__proto__") :
    bump (ks.map (fun k => (k, v k))) x =
      if x ∈ ks then ks.map (fun k => (k, if k = x then (v k).succ else v k))
      else ks.map (fun k => (k, v k)) ++ [(x, firstValue x)] := by
  induction ks with
  | nil => simp [bump, hx]
  | cons k ks ih =>
    rw [List.nodup_cons] at h
    by_cases hk : k = x
    · subst hk
      have hm : ks.map (fun k2 => (k2, if k2 = k then (v k2).succ else v k2)) =
          ks.map (fun k2 => (k2, v k2)) := by
        apply List.map_congr_left
        intro a ha
        have : a ≠ k := fun e => h.1 (e ▸ ha)
        simp [this]
      simp [bump, hm]
    · have hx2 : x ≠ k := fun e => hk e.symm
      simp only [List.map_cons, bump, if_neg hk, ih h.2, List.mem_cons, hx2, false_or]
      split_ifs <;> simp

theorem keysOf_nodup (l : List String) : (keysOf l).Nodup :=
  (firsts_nodup l).filter _

theorem mem_keysOf (l : List String) (k : String) :
    k ∈ keysOf l ↔ k ∈ l ∧ k ≠ "__proto__" := by
  unfold keysOf
  simp [List.mem_filter, mem_firsts]

theorem tallyValueOf_snoc (l : List String) (x k : String) :
    tallyValueOf (l ++ [x]) k =
      if k = x then (tallyValueOf l k).succ else tallyValueOf l k := by
  unfold tallyValueOf
  by_cases hp : k ∈ protoFunctions
  · simp [hp, TallyValue.succ]
  · by_cases hk : k = x
    · subst hk
      simp [hp, TallyValue.succ]
    · have : x ≠ k := fun e => hk e.symm
      simp [hp, hk, List.count_singleton, this]

theorem tally_eq (l : List String) :
    tally l = (keysOf l).map (fun k => (k, tallyValueOf l k)) := by
  induction l using List.reverseRecOn with
  | nil => simp [tally, keysOf, firsts]
  | append_singleton l x ih =>
    rw [tally_snoc, ih]
    by_cases hx : x = "__proto__"
    · subst hx
      rw [bump_proto _ _ (by simp [mem_keysOf])]
      have hk : keysOf (l ++ ["__proto__"]) = keysOf l := by
        unfold keysOf
        rw [firsts_snoc, addKey]
        split_ifs <;> simp
      rw [hk]
      apply List.map_congr_left
      intro a ha
      have hne : a ≠ "__proto__" := ((mem_keysOf l a).mp ha).2
      simp [tallyValueOf_snoc, hne]
    · rw [bump_map _ _ _ (keysOf_nodup l) hx]
      have hmem : x ∈ keysOf l ↔ x ∈ firsts l := by
        rw [mem_keysOf, mem_firsts]
        exact ⟨fun h => h.1, fun h => ⟨h, hx⟩⟩
      by_cases hin : x ∈ firsts l
      · have hk : keysOf (l ++ [x]) = keysOf l := by
          unfold keysOf
          rw [firsts_snoc, addKey, if_pos hin]
        rw [if_pos (hmem.mpr hin), hk]
        apply List.map_congr_left
        intro a _
        rw [tallyValueOf_snoc]
      · have hk : keysOf (l ++ [x]) = keysOf l ++ [x] := by
          unfold keysOf
          rw [firsts_snoc, addKey, if_neg hin]
          simp [List.filter_append, hx]
        have hxl : x ∉ l := fun e => hin ((mem_firsts l x).mpr e)
        rw [if_neg (fun e => hin (hmem.mp e)), hk, List.map_append]
        congr 1
        · apply List.map_congr_left
          intro a ha
          have hne : a ≠ x := fun e => hin (hmem.mp (e ▸ ha))
          simp [tallyValueOf_snoc, hne]
        · simp [tallyValueOf, firstValue, List.count_eq_zero_of_not_mem hxl]

theorem firsts_pairwise (l : List String) :
    (firsts l).Pairwise (fun a b => l.indexOf a < l.indexOf b) := by
  induction l using List.reverseRecOn with
  | nil => simp [firsts]
  | append_singleton l x ih =>
    have ih2 : (firsts l).Pairwise
        (fun a b => (l ++ [x]).indexOf a < (l ++ [x]).indexOf b) := by
      apply ih.imp_of_mem
      intro a b ha hb hab
      rw [List.indexOf_append_of_mem ((mem_firsts l a).mp ha),
        List.indexOf_append_of_mem ((mem_firsts l b).mp hb)]
      exact hab
    rw [firsts_snoc, addKey]
    split_ifs with h
    · exact ih2
    · rw [List.pairwise_append]
      refine ⟨ih2, List.pairwise_singleton _ _, ?_⟩
      intro a ha b hb
      rw [List.mem_singleton] at hb
      subst hb
      have hal : a ∈ l := (mem_firsts l a).mp ha
      have hbl : b ∉ l := fun e => h ((mem_firsts l b).mpr e)
      rw [List.indexOf_append_of_mem hal, List.indexOf_append_of_not_mem hbl]
      have := List.indexOf_lt_length.mpr hal
      omega

theorem keysOf_pairwise (l : List String) :
    (keysOf l).Pairwise (fun a b => l.indexOf a < l.indexOf b) :=
  (firsts_pairwise l).sublist (List.filter_sublist _)

theorem arrayIndex_some (s : String) (i : Nat) (h : arrayIndex? s = some i) :
    i = decimalValue s ∧ i < 4294967295 ∧ Nat.repr i = s := by
  unfold arrayIndex? at h
  split_ifs at h with hc
  simp only [Option.some.injEq] at h
  subst h
  exact ⟨rfl, hc.1, hc.2⟩

theorem enumRank_inj (l : List String) (a b : String) (ha : a ∈ l) (hb : b ∈ l)
    (h : enumRank l a = enumRank l b) : a = b := by
  unfold enumRank at h
  cases hia : arrayIndex? a with
  | some i =>
    cases hib : arrayIndex? b with
    | some j =>
      rw [hia, hib] at h
      simp only at h
      subst h
      rw [← (arrayIndex_some a _ hia).2.2, ← (arrayIndex_some b _ hib).2.2]
    | none =>
      rw [hia, hib] at h
      simp only at h
      have := (arrayIndex_some a _ hia).2.1
      omega
  | none =>
    cases hib : arrayIndex? b with
    | some j =>
      rw [hia, hib] at h
      simp only at h
      have := (arrayIndex_some b _ hib).2.1
      omega
    | none =>
      rw [hia, hib] at h
      simp only at h
      exact (List.indexOf_inj ha hb).mp (by omega)

theorem entries_perm (obj : List (String × TallyValue)) : (entries obj).Perm obj := by
  unfold entries
  exact ((List.perm_insertionSort idxLe _).append_right _).trans
    (List.filter_append_perm isIndexKey obj)

theorem enumRank_index (l : List String) (e : String × TallyValue) (h : isIndexKey e = true) :
    enumRank l e.1 = decimalValue e.1 ∧ enumRank l e.1 < 4294967295 := by
  unfold isIndexKey at h
  obtain ⟨i, hi⟩ := Option.isSome_iff_exists.mp h
  have := arrayIndex_some e.1 i hi
  unfold enumRank
  rw [hi]
  exact ⟨this.1, this.2.1⟩

theorem enumRank_other (l : List String) (e : String × TallyValue)
    (h : (!isIndexKey e) = true) : enumRank l e.1 = 4294967295 + l.indexOf e.1 := by
  unfold isIndexKey at h
  have hn : arrayIndex? e.1 = none := by
    cases hc : arrayIndex? e.1 with
    | none => rfl
    | some i => rw [hc] at h; simp at h
  unfold enumRank
  rw [hn]

theorem entries_pairwise (l : List String) :
    (entries (tally l)).Pairwise (fun a b => enumRank l a.1 ≤ enumRank l b.1) := by
  unfold entries
  rw [List.pairwise_append]
  refine ⟨?_, ?_, ?_⟩
  · have hs : List.Pairwise idxLe (((tally l).filter isIndexKey).insertionSort idxLe) :=
      List.sorted_insertionSort idxLe _
    apply hs.imp_of_mem
    intro a b ha hb hab
    have ha2 := (List.mem_filter.mp ((List.perm_insertionSort idxLe _).mem_iff.mp ha)).2
    have hb2 := (List.mem_filter.mp ((List.perm_insertionSort idxLe _).mem_iff.mp hb)).2
    rw [(enumRank_index l a ha2).1, (enumRank_index l b hb2).1]
    exact hab
  · have hk : (tally l).Pairwise (fun a b => l.indexOf a.1 < l.indexOf b.1) := by
      rw [tally_eq, List.pairwise_map]
      exact keysOf_pairwise l
    have hf : ((tally l).filter (fun e => !isIndexKey e)).Pairwise
        (fun a b => l.indexOf a.1 < l.indexOf b.1) := hk.sublist (List.filter_sublist _)
    apply hf.imp_of_mem
    intro a b ha hb hab
    rw [enumRank_other l a (List.mem_filter.mp ha).2, enumRank_other l b (List.mem_filter.mp hb).2]
    omega
  · intro a ha b hb
    have ha2 := (List.mem_filter.mp ((List.perm_insertionSort idxLe _).mem_iff.mp ha)).2
    rw [enumRank_other l b (List.mem_filter.mp hb).2]
    have := (enumRank_index l a ha2).2
    omega

theorem foldl_maxStep_keep (es : List (String × TallyValue)) (acc : Option String × Nat)
    (h : ∀ e ∈ es, ∀ n, e.2 = TallyValue.count n → n ≤ acc.2) :
    es.foldl maxStep acc = acc := by
  induction es with
  | nil => rfl
  | cons e es ih =>
    have he : maxStep acc e = acc := by
      unfold maxStep
      split
      · next n hn =>
        have := h e (List.mem_cons_self _ _) n hn
        rw [if_neg (by omega)]
      · rfl
    rw [List.foldl_cons, he]
    exact ih (fun e2 he2 => h e2 (List.mem_cons_of_mem _ he2))

theorem foldl_maxStep_lt (es : List (String × TallyValue)) (c : Nat) :
    ∀ acc : Option String × Nat, acc.2 < c →
      (∀ e ∈ es, ∀ n, e.2 = TallyValue.count n → n < c) →
      (es.foldl maxStep acc).2 < c := by
  induction es with
  | nil => intro acc hacc _; exact hacc
  | cons e es ih =>
    intro acc hacc h
    rw [List.foldl_cons]
    apply ih
    · unfold maxStep
      split
      · next n hn =>
        split_ifs
        · exact h e (List.mem_cons_self _ _) n hn
        · exact hacc
      · exact hacc
    · exact fun e2 he2 => h e2 (List.mem_cons_of_mem _ he2)

theorem pickMax_split (pre post : List (String × TallyValue)) (T : String) (c : Nat)
    (hc : 0 < c)
    (hpre : ∀ e ∈ pre, ∀ n, e.2 = TallyValue.count n → n < c)
    (hpost : ∀ e ∈ post, ∀ n, e.2 = TallyValue.count n → n ≤ c) :
    pickMax (pre ++ (T, TallyValue.count c) :: post) = (some T, c) := by
  unfold pickMax
  rw [List.foldl_append, List.foldl_cons]
  have h1 := foldl_maxStep_lt pre c (none, 0) hc hpre
  have h2 : maxStep (pre.foldl maxStep (none, 0)) (T, TallyValue.count c) = (some T, c) := by
    simp only [maxStep]
    rw [if_pos h1]
  rw [h2]
  exact foldl_maxStep_keep post _ hpost

theorem mem_tally (l : List String) (u : String) (v : TallyValue) :
    (u, v) ∈ tally l ↔ (u ∈ l ∧ u ≠ "__proto__") ∧ v = tallyValueOf l u := by
  rw [tally_eq, List.mem_map]
  constructor
  · rintro ⟨k, hk, he⟩
    simp only [Prod.mk.injEq] at he
    obtain ⟨rfl, rfl⟩ := he
    exact ⟨(mem_keysOf l k).mp hk, rfl⟩
  · rintro ⟨hu, rfl⟩
    exact ⟨u, (mem_keysOf l u).mpr hu, rfl⟩

theorem mem_tally_count (l : List String) (u : String) (n : Nat)
    (h : (u, TallyValue.count n) ∈ tally l) :
    u ∈ l ∧ u ∉ inheritedNames ∧ n = l.count u := by
  obtain ⟨⟨hu, hp⟩, hv⟩ := (mem_tally l u _).mp h
  unfold tallyValueOf at hv
  split_ifs at hv with hf
  simp only [TallyValue.count.injEq] at hv
  refine ⟨hu, ?_, hv⟩
  unfold inheritedNames
  simp only [List.mem_cons, not_or]
  exact ⟨hp, hf⟩

theorem tally_keys_nodup (l : List String) : ((tally l).map Prod.fst).Nodup := by
  rw [tally_eq, List.map_map]
  have : (Prod.fst ∘ fun k => (k, tallyValueOf l k)) = id := rfl
  rw [this, List.map_id]
  exact keysOf_nodup l

theorem pickMax_winner (targets : List String) (T : String) (h : Winner targets T) :
    pickMax (entries (tally targets)) = (some T, targets.count T) := by
  obtain ⟨hmem, hni, hmax, hfirst⟩ := h
  have hcpos : 0 < targets.count T := List.count_pos_iff.mpr hmem
  have hTp : T ≠ "__proto__" ∧ T ∉ protoFunctions := by
    unfold inheritedNames at hni
    simp only [List.mem_cons, not_or] at hni
    exact hni
  have hTin : (T, TallyValue.count (targets.count T)) ∈ entries (tally targets) := by
    rw [(entries_perm _).mem_iff, mem_tally]
    exact ⟨⟨hmem, hTp.1⟩, by simp [tallyValueOf, hTp.2]⟩
  obtain ⟨pre, post, hsplit⟩ := List.append_of_mem hTin
  have hpw := entries_pairwise targets
  have hnd : ((entries (tally targets)).map Prod.fst).Nodup :=
    ((entries_perm (tally targets)).map Prod.fst).nodup_iff.mpr (tally_keys_nodup targets)
  rw [hsplit] at hpw hnd
  have hin : ∀ e ∈ pre ++ (T, TallyValue.count (targets.count T)) :: post,
      e ∈ tally targets := by
    intro e he
    rw [← hsplit] at he
    exact (entries_perm _).mem_iff.mp he
  rw [hsplit]
  apply pickMax_split pre post T _ hcpos
  · intro e he n hn
    have hemem := hin e (List.mem_append_left _ he)
    obtain ⟨u, v⟩ := e
    simp only at hn
    subst hn
    obtain ⟨hu, hui, hcnt⟩ := mem_tally_count targets u n hemem
    have hle := hmax u hu hui
    rcases Nat.lt_or_eq_of_le hle with hlt | heq
    · omega
    · exfalso
      have h1 := hfirst u hu hui heq
      have h2 : enumRank targets u ≤ enumRank targets T :=
        (List.pairwise_append.mp hpw).2.2 _ he _ (List.mem_cons_self _ _)
      have hTu : u = T := enumRank_inj targets u T hu hmem (by omega)
      subst hTu
      rw [List.map_append, List.map_cons] at hnd
      have hdis := (List.nodup_append.mp hnd).2.2
      exact hdis (List.mem_map_of_mem Prod.fst he) (List.mem_cons_self _ _)
  · intro e he n hn
    have hemem := hin e (List.mem_append_right _ (List.mem_cons_of_mem _ he))
    obtain ⟨u, v⟩ := e
    simp only at hn
    subst hn
    obtain ⟨hu, hui, hcnt⟩ := mem_tally_count targets u n hemem
    have := hmax u hu hui
    omega

theorem winner_exists (targets : List String) (h : ∃ u ∈ targets, u ∉ inheritedNames) :
    ∃ T, Winner targets T := by
  obtain ⟨u0, hu0, hu0n⟩ := h
  have hne : (targets.toFinset.filter (fun u => u ∉ inheritedNames)).Nonempty :=
    ⟨u0, Finset.mem_filter.mpr ⟨List.mem_toFinset.mpr hu0, hu0n⟩⟩
  obtain ⟨m, hm, hmmax⟩ := Finset.exists_max_image _ (fun u => targets.count u) hne
  have hne2 : ((targets.toFinset.filter (fun u => u ∉ inheritedNames)).filter
      (fun u => targets.count u = targets.count m)).Nonempty :=
    ⟨m, Finset.mem_filter.mpr ⟨hm, rfl⟩⟩
  obtain ⟨T, hT, hTmin⟩ := Finset.exists_min_image _ (fun u => enumRank targets u) hne2
  simp only [Finset.mem_filter, List.mem_toFinset] at hT hTmin hmmax
  refine ⟨T, hT.1.1, hT.1.2, ?_, ?_⟩
  · intro u hu hun
    rw [hT.2]
    exact hmmax u ⟨hu, hun⟩
  · intro u hu hun hc
    exact hTmin u ⟨⟨hu, hun⟩, hc.trans hT.2⟩

theorem winner_unique (targets : List String) (T T2 : String)
    (h : Winner targets T) (h2 : Winner targets T2) : T2 = T := by
  have e1 := pickMax_winner targets T h
  have e2 := pickMax_winner targets T2 h2
  rw [e1] at e2
  simpa using (congrArg Prod.fst e2).symm

theorem foldl_maxStep_mem (es : List (String × TallyValue)) :
    ∀ acc : Option String × Nat, es.foldl maxStep acc = acc ∨
      ∃ t n, es.foldl maxStep acc = (some t, n) ∧ (t, TallyValue.count n) ∈ es := by
  induction es with
  | nil => intro acc; exact Or.inl rfl
  | cons e es ih =>
    intro acc
    rw [List.foldl_cons]
    have hstep : maxStep acc e = acc ∨
        ∃ n, maxStep acc e = (some e.1, n) ∧ e = (e.1, TallyValue.count n) := by
      unfold maxStep
      split
      · next n hn =>
        split_ifs
        · exact Or.inr ⟨n, rfl, Prod.ext rfl hn⟩
        · exact Or.inl rfl
      · exact Or.inl rfl
    rcases ih (maxStep acc e) with h | ⟨t, n, h, hmem⟩
    · rcases hstep with hs | ⟨n, hs, he⟩
      · left; rw [h, hs]
      · right
        exact ⟨e.1, n, by rw [h, hs], by rw [← he]; exact List.mem_cons_self _ _⟩
    · right
      exact ⟨t, n, h, List.mem_cons_of_mem _ hmem⟩

theorem pickMax_not_inherited (targets : List String) (t : String)
    (h : (pickMax (entries (tally targets))).1 = some t) :
    t ∈ targets ∧ t ∉ inheritedNames := by
  unfold pickMax at h
  rcases foldl_maxStep_mem (entries (tally targets)) (none, 0) with he | ⟨t2, n, he, hmem⟩
  · rw [he] at h
    simp at h
  · rw [he] at h
    simp only [Option.some.injEq] at h
    subst h
    have := mem_tally_count targets t2 n ((entries_perm _).mem_iff.mp hmem)
    exact ⟨this.1, this.2.1⟩

theorem lookupPlayer_map (players : List Player) (F : Player → Player)
    (hF : ∀ p, (F p).uid = p.uid) (u : String) :
    lookupPlayer (players.map F) u = (lookupPlayer players u).map F := by
  induction players with
  | nil => rfl
  | cons p ps ih =>
    unfold lookupPlayer at ih ⊢
    simp only [List.map_cons, List.find?_cons, hF]
    split <;> simp_all

theorem lookupPlayer_uid (players : List Player) (u : String) (p : Player)
    (h : lookupPlayer players u = some p) : p.uid = u ∧ p ∈ players := by
  unfold lookupPlayer at h
  have h1 := List.find?_some h
  have h2 := List.mem_of_find?_eq_some h
  exact ⟨by simpa using h1, h2⟩

theorem contains_mid (a s b : String) : Contains (a ++ s ++ b) s :=
  ⟨a, b, rfl⟩

theorem lookupName_cases :
    lookupName sixPlayers "u4" = "Dee" ∧ lookupName sixPlayers "gone" = "undefined" ∧
    lookupName sixPlayers "constructor" = "Object" ∧
    lookupName sixPlayers "toString" = "toString" ∧
    lookupName sixPlayers "__proto__" = "undefined" ∧
    lookupName oddPlayers "constructor" = "Con" := by
  decide

theorem tally_cases :
    entries (tally ["b", "10", "a", "9", "toString", "__proto__", "b", "toString"]) =
      [("9", TallyValue.count 1), ("10", TallyValue.count 1), ("b", TallyValue.count 2),
       ("a", TallyValue.count 1), ("toString", TallyValue.text)] ∧
    pickMax (entries (tally ["b", "10", "a", "9", "toString", "__proto__", "b", "toString"])) =
      (some "b", 2) ∧
    arrayIndex? "4294967294" = some 4294967294 ∧ arrayIndex? "4294967295" = none ∧
    arrayIndex? "09" = none ∧ arrayIndex? "" = none := by
  decide

/-! ## Night resolution -/

theorem truthy_some (t : String) (h : t ≠ "") : truthy (some t) = true := by
  simp [truthy, h]

/-- C2 (amended). In a night game whose mafia sub-tally yields a non-null, non-empty target
that equals the doctor action's target, `resolveNight` returns normally, leaves every player
record unchanged (nobody is marked dead), appends a `save` event to the log and sets the
state to `day`. -/
theorem resolveNight_save (now : Nat → Nat) (g : Game) (t : String)
    (_hstate : g.state = "night")
    (hm : mafiaTargetOf g = some t) (hne : t ≠ "")
    (hd : doctorTargetOf g = some t) :
    ∃ g', resolveNight now g = some g' ∧
      g'.players = g.players ∧
      (∃ e, g'.events = g.events ++ e :: detectiveEvents now g ∧ e.type = "save") ∧
      g'.state = "day" := by
  have h : resolveNight now g = some (dbUpdate g
      [Update.events (g.events ++
          [{ type := "save", message := "💉 Someone was saved by the Doctor!",
             timestamp := now 0 }] ++ detectiveEvents now g),
        Update.actions [], Update.state "day", Update.phaseStartTime (now 2),
        Update.phaseDuration 60000]) := by
    simp only [resolveNight, hm, hd, truthy_some t hne, if_true]
  refine ⟨_, h, ?_, ⟨⟨"save", "💉 Someone was saved by the Doctor!", now 0⟩, ?_, ?_⟩, ?_⟩
  · simp [dbUpdate, applyUpdate]
  · simp [dbUpdate, applyUpdate]
  · rfl
  · simp [dbUpdate, applyUpdate]

theorem resolveNight_save_witness :
    (nightGame saveActions).state = "night" ∧
    mafiaTargetOf (nightGame saveActions) = some "u4" ∧
    ∃ g', resolveNight (fun _ => 7) (nightGame saveActions) = some g' ∧
      g'.players = (nightGame saveActions).players ∧
      (∃ e, g'.events = (nightGame saveActions).events ++
        e :: detectiveEvents (fun _ => 7) (nightGame saveActions) ∧ e.type = "save") ∧
      g'.state = "day" :=
  ⟨rfl, by decide,
    resolveNight_save (fun _ => 7) (nightGame saveActions) "u4" rfl (by decide) (by decide)
      (by decide)⟩

/-- C2 (as stated) fails: with mafia and doctor both targeting the empty string the mafia
sub-tally is the non-null target `""`, equal to the doctor's target, yet `resolveNight`
logs the `info` event of a quiet night and no `save` event. -/
theorem resolveNight_empty_target_not_saved :
    (nightGame emptyTargetActions).state = "night" ∧
    mafiaTargetOf (nightGame emptyTargetActions) = some "" ∧
    doctorTargetOf (nightGame emptyTargetActions) = some "" ∧
    resolveNight (fun _ => 7) (nightGame emptyTargetActions) =
      some { state := "day", players := sixPlayers, actions := [], votes := [],
             events := [⟨"info", "🌙 The night was quiet...", 7⟩],
             phaseStartTime := 7, phaseDuration := 60000, winner := none } := by
  decide

/-- C3 (amended). In a night game, let T be a target of mafia-role actions that is not the
name of a member of `Object.prototype` and carries the most mafia-role actions among such
targets; on a tie, the tied target that comes first in the enumeration of the tally object
(array-index targets in ascending numeric order, then the others in the order first seen).
If T is non-empty, is the uid of a player (`victim`) and is not the doctor action's target
(there may be no doctor action), then `resolveNight` returns normally, sets T's `alive` to
false and changes no other player record, appends a `death` event whose message contains
the victim's name, clears `actions` and sets the state to `day`. -/
theorem resolveNight_death (now : Nat → Nat) (g : Game) (T : String) (victim : Player)
    (_hstate : g.state = "night")
    (hT : Winner
      (((g.actions.map Prod.snd).filter (fun a => a.role = "mafia")).map NightAction.target) T)
    (hne : T ≠ "")
    (hvictim : lookupPlayer g.players T = some victim)
    (hdoc : ((g.actions.map Prod.snd).find? (fun a => a.role = "doctor")).map
      NightAction.target ≠ some T) :
    ∃ g', resolveNight now g = some g' ∧
      g'.players =
        g.players.map (fun p => if p.uid = T then { p with alive := false } else p) ∧
      aliveOf g' T = some false ∧
      (∀ u, u ≠ T → aliveOf g' u = aliveOf g u) ∧
      (∃ e, g'.events = g.events ++ e :: detectiveEvents now g ∧ e.type = "death" ∧
        Contains e.message victim.name) ∧
      g'.actions = [] ∧ g'.state = "day" := by
  have hm : mafiaTargetOf g = some T := by
    unfold mafiaTargetOf mafiaTargets
    rw [pickMax_winner _ T hT]
  have hneq : ¬ (some T = doctorTargetOf g) := fun e => hdoc e.symm
  have h : resolveNight now g = some (dbUpdate g
      [Update.playerAlive T false,
        Update.events (g.events ++
          [{ type := "death", message := "💀 " ++ victim.name ++ " was eliminated by the Mafia!",
             timestamp := now 0 }] ++ detectiveEvents now g),
        Update.actions [], Update.state "day", Update.phaseStartTime (now 2),
        Update.phaseDuration 60000]) := by
    simp only [resolveNight, hm, truthy_some T hne, if_true, if_neg hneq, Option.getD_some,
      hvictim]
  have hpl : (dbUpdate g
      [Update.playerAlive T false,
        Update.events (g.events ++
          [{ type := "death", message := "💀 " ++ victim.name ++ " was eliminated by the Mafia!",
             timestamp := now 0 }] ++ detectiveEvents now g),
        Update.actions [], Update.state "day", Update.phaseStartTime (now 2),
        Update.phaseDuration 60000]).players =
      g.players.map (fun p => if p.uid = T then { p with alive := false } else p) := by
    simp [dbUpdate, applyUpdate, updatePlayer]
  have hF : ∀ p : Player,
      (if p.uid = T then { p with alive := false } else p : Player).uid = p.uid := by
    intro p; split <;> rfl
  refine ⟨_, h, hpl, ?_, ?_,
    ⟨⟨"death", "💀 " ++ victim.name ++ " was eliminated by the Mafia!", now 0⟩, ?_, rfl,
      contains_mid _ _ _⟩, ?_, ?_⟩
  · unfold aliveOf
    rw [hpl, lookupPlayer_map _ _ hF, hvictim]
    simp [(lookupPlayer_uid _ _ _ hvictim).1]
  · intro u hu
    unfold aliveOf
    rw [hpl, lookupPlayer_map _ _ hF]
    cases hl : lookupPlayer g.players u with
    | none => rfl
    | some p =>
      have : p.uid ≠ T := by
        rw [(lookupPlayer_uid _ _ _ hl).1]; exact hu
      simp [this]
  · simp [dbUpdate, applyUpdate]
  · simp [dbUpdate, applyUpdate]
  · simp [dbUpdate, applyUpdate]

theorem resolveNight_death_witness :
    (∃ g', resolveNight (fun _ => 7) (nightGame killActions) = some g' ∧
      g'.players = (nightGame killActions).players.map
        (fun p => if p.uid = "u4" then { p with alive := false } else p) ∧
      aliveOf g' "u4" = some false ∧
      (∀ u, u ≠ "u4" → aliveOf g' u = aliveOf (nightGame killActions) u) ∧
      (∃ e, g'.events = (nightGame killActions).events ++
          e :: detectiveEvents (fun _ => 7) (nightGame killActions) ∧ e.type = "death" ∧
        Contains e.message "Dee") ∧
      g'.actions = [] ∧ g'.state = "day") ∧
    (∃ g', resolveNight (fun _ => 7) (oddNightGame indexTieActions) = some g' ∧
      g'.players = (oddNightGame indexTieActions).players.map
        (fun p => if p.uid = "9" then { p with alive := false } else p) ∧
      aliveOf g' "9" = some false ∧
      (∀ u, u ≠ "9" → aliveOf g' u = aliveOf (oddNightGame indexTieActions) u) ∧
      (∃ e, g'.events = (oddNightGame indexTieActions).events ++
          e :: detectiveEvents (fun _ => 7) (oddNightGame indexTieActions) ∧
        e.type = "death" ∧ Contains e.message "Nin") ∧
      g'.actions = [] ∧ g'.state = "day") ∧
    resolveNight (fun _ => 7) (nightGame killActions) =
      some { state := "day",
             players :=
               [⟨"u1", "Ann", "mafia", true, some 0⟩, ⟨"u2", "Bob", "detective", true, some 0⟩,
                ⟨"u3", "Cid", "doctor", true, some 0⟩, ⟨"u4", "Dee", "villager", false, some 0⟩,
                ⟨"u5", "Eve", "villager", true, none⟩, ⟨"u6", "Fay", "villager", true, some 0⟩],
             actions := [], votes := [],
             events := [⟨"death", "💀 Dee was eliminated by the Mafia!", 7⟩,
                        ⟨"info", "🔍 Detective checked Ann: 🔴 MAFIA!", 7⟩],
             phaseStartTime := 7, phaseDuration := 60000, winner := none } :=
  ⟨resolveNight_death (fun _ => 7) (nightGame killActions) "u4"
      ⟨"u4", "Dee", "villager", true, some 0⟩ rfl (by decide) (by decide) (by decide)
      (by decide),
    resolveNight_death (fun _ => 7) (oddNightGame indexTieActions) "9"
      ⟨"9", "Nin", "villager", true, some 0⟩ rfl (by decide) (by decide) (by decide)
      (by decide),
    by decide⟩

/-- C3 (as stated) fails. With mafia actions on `u4` and then on the player `9`, the target
with the most actions, first observed on the tie, is `u4`; `resolveNight` kills `9` and
leaves `u4` alive, because the tally object lists the array-index key first. With both mafia
actions on the player `constructor`, that target carries the most actions; `resolveNight`
kills nobody and logs a quiet night, because the count stored under an inherited name is a
string. -/
theorem resolveNight_death_fails_on_odd_keys :
    (FirstPlurality (mafiaTargets (oddNightGame indexTieActions)) "u4" ∧
      lookupPlayer oddPlayers "u4" = some ⟨"u4", "Dee", "villager", true, some 0⟩ ∧
      doctorTargetOf (oddNightGame indexTieActions) = none ∧
      resolveNight (fun _ => 7) (oddNightGame indexTieActions) =
        some { state := "day",
               players :=
                 [⟨"9", "Nin", "villager", false, some 0⟩, ⟨"u1", "Ann", "mafia", true, some 0⟩,
                  ⟨"u2", "Bob", "mafia", true, some 0⟩, ⟨"u4", "Dee", "villager", true, some 0⟩,
                  ⟨"u5", "Eve", "villager", true, some 0⟩,
                  ⟨"constructor", "Con", "villager", true, some 0⟩],
               actions := [], votes := [],
               events := [⟨"death", "💀 Nin was eliminated by the Mafia!", 7⟩],
               phaseStartTime := 7, phaseDuration := 60000, winner := none }) ∧
    (FirstPlurality (mafiaTargets (oddNightGame inheritedActions)) "constructor" ∧
      lookupPlayer oddPlayers "constructor" =
        some ⟨"constructor", "Con", "villager", true, some 0⟩ ∧
      doctorTargetOf (oddNightGame inheritedActions) = none ∧
      resolveNight (fun _ => 7) (oddNightGame inheritedActions) =
        some { state := "day", players := oddPlayers, actions := [], votes := [],
               events := [⟨"info", "🌙 The night was quiet...", 7⟩],
               phaseStartTime := 7, phaseDuration := 60000, winner := none }) := by
  decide

/-! ## Day resolution -/

theorem lookupPlayer_of_mem (players : List Player) (u : String)
    (h : ∃ p ∈ players, p.uid = u) : ∃ v, lookupPlayer players u = some v := by
  cases hl : lookupPlayer players u with
  | some v => exact ⟨v, rfl⟩
  | none =>
    exfalso
    unfold lookupPlayer at hl
    rw [List.find?_eq_none] at hl
    obtain ⟨p, hp, hu⟩ := h
    exact hl p hp (by simpa using hu)

/-- C4 (amended). In a day game whose vote targets are all players, at least one of them not
the name of a member of `Object.prototype`, `resolveDay` eliminates exactly one player E: E
is not such a name, has at least as many votes as every other such target and, among those
with as many votes, comes first in the enumeration of the tally object (array-index targets
in ascending numeric order, then the others in the order of their first vote); these
properties determine E. E's `alive` becomes false, no other player record changes, a `death`
event whose message contains E's name and role is appended, and the state becomes `night`. -/
theorem resolveDay_eliminates (now : Nat → Nat) (g : Game) (hwf : g.WellFormed)
    (_hstate : g.state = "day")
    (hpresent : ∀ v ∈ g.votes, ∃ p ∈ g.players, p.uid = v.2)
    (hcand : ∃ v ∈ g.votes, v.2 ∉ inheritedNames) :
    ∃ E victim, Winner (g.votes.map Prod.snd) E ∧
      (∀ E2, Winner (g.votes.map Prod.snd) E2 → E2 = E) ∧
      lookupPlayer g.players E = some victim ∧
      (g.players.map Player.uid).count E = 1 ∧
      ∃ g', resolveDay now g = some g' ∧
        g'.players =
          g.players.map (fun p => if p.uid = E then { p with alive := false } else p) ∧
        aliveOf g' E = some false ∧
        (∀ u, u ≠ E → aliveOf g' u = aliveOf g u) ∧
        (∃ e, g'.events = g.events ++ [e] ∧ e.type = "death" ∧
          Contains e.message victim.name ∧ Contains e.message victim.role) ∧
        g'.state = "night" := by
  have hex : ∃ u ∈ g.votes.map Prod.snd, u ∉ inheritedNames := by
    obtain ⟨v, hv, hvn⟩ := hcand
    exact ⟨v.2, List.mem_map_of_mem Prod.snd hv, hvn⟩
  obtain ⟨E, hE⟩ := winner_exists _ hex
  have hEmem : ∃ p ∈ g.players, p.uid = E := by
    obtain ⟨v, hv, rfl⟩ := List.mem_map.mp hE.1
    exact hpresent v hv
  obtain ⟨victim, hvictim⟩ := lookupPlayer_of_mem _ _ hEmem
  have hvu := lookupPlayer_uid _ _ _ hvictim
  have hEne : E ≠ "" := by
    rw [← hvu.1]; exact hwf.2 victim hvu.2
  have hcount : 0 < (g.votes.map Prod.snd).count E := List.count_pos_iff.mpr hE.1
  have hdt : dayTally g = (some E, (g.votes.map Prod.snd).count E) := by
    unfold dayTally
    exact pickMax_winner _ E hE
  have h : resolveDay now g = some (dbUpdate g
      [Update.playerAlive E false,
        Update.events (g.events ++
          [{ type := "death",
             message := "⚖️ " ++ victim.name ++ " (" ++ victim.role ++ ") was voted out!",
             timestamp := now 0 }]),
        Update.votes [], Update.state "night", Update.phaseStartTime (now 1),
        Update.phaseDuration 45000]) := by
    simp only [resolveDay, hdt, truthy_some E hEne, Bool.true_and, gt_iff_lt, hcount,
      decide_True, if_true, Option.getD_some, hvictim]
  have hpl : (dbUpdate g
      [Update.playerAlive E false,
        Update.events (g.events ++
          [{ type := "death",
             message := "⚖️ " ++ victim.name ++ " (" ++ victim.role ++ ") was voted out!",
             timestamp := now 0 }]),
        Update.votes [], Update.state "night", Update.phaseStartTime (now 1),
        Update.phaseDuration 45000]).players =
      g.players.map (fun p => if p.uid = E then { p with alive := false } else p) := by
    simp [dbUpdate, applyUpdate, updatePlayer]
  have hF : ∀ p : Player,
      (if p.uid = E then { p with alive := false } else p : Player).uid = p.uid := by
    intro p; split <;> rfl
  refine ⟨E, victim, hE, fun E2 h2 => winner_unique _ E E2 hE h2, hvictim, ?_, _, h,
    hpl, ?_, ?_,
    ⟨⟨"death", "⚖️ " ++ victim.name ++ " (" ++ victim.role ++ ") was voted out!", now 0⟩,
      ?_, rfl, ?_, ?_⟩, ?_⟩
  · apply List.count_eq_one_of_mem hwf.1
    rw [← hvu.1]
    exact List.mem_map_of_mem Player.uid hvu.2
  · unfold aliveOf
    rw [hpl, lookupPlayer_map _ _ hF, hvictim]
    simp [hvu.1]
  · intro u hu
    unfold aliveOf
    rw [hpl, lookupPlayer_map _ _ hF]
    cases hl : lookupPlayer g.players u with
    | none => rfl
    | some p =>
      have : p.uid ≠ E := by
        rw [(lookupPlayer_uid _ _ _ hl).1]; exact hu
      simp [this]
  · simp [dbUpdate, applyUpdate]
  · exact ⟨"⚖️ ", " (" ++ victim.role ++ ") was voted out!", by
      simp only [String.append_assoc]⟩
  · exact contains_mid _ _ _
  · simp [dbUpdate, applyUpdate]

theorem resolveDay_eliminates_witness :
    Winner ((dayGame majorityVotes).votes.map Prod.snd) "u4" ∧
    Winner ((oddDayGame oddVotes).votes.map Prod.snd) "9" ∧
    (∃ E victim, Winner ((dayGame majorityVotes).votes.map Prod.snd) E ∧
      (∀ E2, Winner ((dayGame majorityVotes).votes.map Prod.snd) E2 → E2 = E) ∧
      lookupPlayer (dayGame majorityVotes).players E = some victim ∧
      ((dayGame majorityVotes).players.map Player.uid).count E = 1 ∧
      ∃ g', resolveDay (fun _ => 7) (dayGame majorityVotes) = some g' ∧
        g'.players = (dayGame majorityVotes).players.map
          (fun p => if p.uid = E then { p with alive := false } else p) ∧
        aliveOf g' E = some false ∧
        (∀ u, u ≠ E → aliveOf g' u = aliveOf (dayGame majorityVotes) u) ∧
        (∃ e, g'.events = (dayGame majorityVotes).events ++ [e] ∧ e.type = "death" ∧
          Contains e.message victim.name ∧ Contains e.message victim.role) ∧
        g'.state = "night") ∧
    (∃ E victim, Winner ((oddDayGame oddVotes).votes.map Prod.snd) E ∧
      (∀ E2, Winner ((oddDayGame oddVotes).votes.map Prod.snd) E2 → E2 = E) ∧
      lookupPlayer (oddDayGame oddVotes).players E = some victim ∧
      ((oddDayGame oddVotes).players.map Player.uid).count E = 1 ∧
      ∃ g', resolveDay (fun _ => 7) (oddDayGame oddVotes) = some g' ∧
        g'.players = (oddDayGame oddVotes).players.map
          (fun p => if p.uid = E then { p with alive := false } else p) ∧
        aliveOf g' E = some false ∧
        (∀ u, u ≠ E → aliveOf g' u = aliveOf (oddDayGame oddVotes) u) ∧
        (∃ e, g'.events = (oddDayGame oddVotes).events ++ [e] ∧ e.type = "death" ∧
          Contains e.message victim.name ∧ Contains e.message victim.role) ∧
        g'.state = "night") ∧
    resolveDay (fun _ => 7) (oddDayGame oddVotes) =
      some { state := "night",
             players :=
               [⟨"9", "Nin", "villager", false, some 0⟩, ⟨"u1", "Ann", "mafia", true, some 0⟩,
                ⟨"u2", "Bob", "mafia", true, some 0⟩, ⟨"u4", "Dee", "villager", true, some 0⟩,
                ⟨"u5", "Eve", "villager", true, some 0⟩,
                ⟨"constructor", "Con", "villager", true, some 0⟩],
             actions := [], votes := [],
             events := [⟨"death", "⚖️ Nin (villager) was voted out!", 7⟩],
             phaseStartTime := 7, phaseDuration := 45000, winner := none } :=
  ⟨by decide, by decide,
    resolveDay_eliminates (fun _ => 7) (dayGame majorityVotes) (by decide) rfl (by decide)
      (by decide),
    resolveDay_eliminates (fun _ => 7) (oddDayGame oddVotes) (by decide) rfl (by decide)
      (by decide),
    by decide⟩

/-- C4 (as stated) fails. With one vote for `u5` and then one for the player `9`, the target
with the highest count whose first vote comes first is `u5`; `resolveDay` eliminates `9` and
leaves `u5` alive, because the tally object lists the array-index key first. With both votes
for the player `constructor`, `resolveDay` eliminates nobody and logs the `info` event,
because the count stored under an inherited name is a string. -/
theorem resolveDay_eliminates_fails_on_odd_keys :
    ((oddDayGame indexTieVotes).WellFormed ∧
      (∀ v ∈ (oddDayGame indexTieVotes).votes, ∃ p ∈ oddPlayers, p.uid = v.2) ∧
      FirstPlurality ((oddDayGame indexTieVotes).votes.map Prod.snd) "u5" ∧
      resolveDay (fun _ => 7) (oddDayGame indexTieVotes) =
        some { state := "night",
               players :=
                 [⟨"9", "Nin", "villager", false, some 0⟩, ⟨"u1", "Ann", "mafia", true, some 0⟩,
                  ⟨"u2", "Bob", "mafia", true, some 0⟩, ⟨"u4", "Dee", "villager", true, some 0⟩,
                  ⟨"u5", "Eve", "villager", true, some 0⟩,
                  ⟨"constructor", "Con", "villager", true, some 0⟩],
               actions := [], votes := [],
               events := [⟨"death", "⚖️ Nin (villager) was voted out!", 7⟩],
               phaseStartTime := 7, phaseDuration := 45000, winner := none }) ∧
    ((∀ v ∈ (oddDayGame inheritedVotes).votes, ∃ p ∈ oddPlayers, p.uid = v.2) ∧
      FirstPlurality ((oddDayGame inheritedVotes).votes.map Prod.snd) "constructor" ∧
      resolveDay (fun _ => 7) (oddDayGame inheritedVotes) =
        some { state := "night", players := oddPlayers, actions := [], votes := [],
               events := [⟨"info", "⚖️ No one was eliminated. (No votes or tie)", 7⟩],
               phaseStartTime := 7, phaseDuration := 45000, winner := none }) := by
  decide

/-- C5 (code diverges). With the votes tied 2-2 between `u4` and `u5`, `resolveDay` does
not log the `No votes or tie` event: it marks `u4`, the first of the tied targets, as dead
and appends a `death` event. -/
theorem resolveDay_tie_eliminates_first :
    (tiedVotes.map Prod.snd).count "u4" = 2 ∧ (tiedVotes.map Prod.snd).count "u5" = 2 ∧
    dayTally (dayGame tiedVotes) = (some "u4", 2) ∧
    resolveDay (fun _ => 7) (dayGame tiedVotes) =
      some { state := "night",
             players :=
               [⟨"u1", "Ann", "mafia", true, some 0⟩, ⟨"u2", "Bob", "detective", true, some 0⟩,
                ⟨"u3", "Cid", "doctor", true, some 0⟩, ⟨"u4", "Dee", "villager", false, some 0⟩,
                ⟨"u5", "Eve", "villager", true, none⟩, ⟨"u6", "Fay", "villager", true, some 0⟩],
             actions := [], votes := [],
             events := [⟨"death", "⚖️ Dee (villager) was voted out!", 7⟩],
             phaseStartTime := 7, phaseDuration := 45000, winner := none } := by
  decide

/-- C8 (code diverges). When the selected target is not a key of `players`, neither
`resolveNight` nor `resolveDay` completes: both throw at `victim.name`, before the store
write, so the phase transition is not performed. -/
theorem resolve_missing_target_throws :
    mafiaTargetOf (nightGame ghostActions) = some "gone" ∧
    doctorTargetOf (nightGame ghostActions) = none ∧
    lookupPlayer sixPlayers "gone" = none ∧
    resolveNight (fun _ => 7) (nightGame ghostActions) = none ∧
    dayTally (dayGame ghostVotes) = (some "gone", 1) ∧
    resolveDay (fun _ => 7) (dayGame ghostVotes) = none := by
  decide

/-- C9 (code diverges). Invoked by the host on a game whose state is `results` or `lobby`,
`resolvePhase` runs `resolveDay`: the state becomes `night`, an `info` event is appended
and the phase timer is rewritten. -/
theorem resolvePhase_outside_phase_runs_resolveDay :
    resolvePhase true (fun _ => 7) finishedGame =
      some { finishedGame with
             state := "night",
             events := finishedGame.events ++
               [⟨"info", "⚖️ No one was eliminated. (No votes or tie)", 7⟩],
             phaseStartTime := 7, phaseDuration := 45000 } ∧
    resolvePhase true (fun _ => 7) finishedGame ≠ some finishedGame ∧
    resolvePhase true (fun _ => 7) lobbyGame =
      some { lobbyGame with
             state := "night",
             events := [⟨"info", "⚖️ No one was eliminated. (No votes or tie)", 7⟩],
             phaseStartTime := 7, phaseDuration := 45000 } ∧
    resolvePhase true (fun _ => 7) lobbyGame ≠ some lobbyGame := by
  decide

/-! ## Win evaluation -/

theorem aliveMafia_length (players : List Player) :
    (aliveMafia players).length = aliveMafiaCount players := by
  unfold aliveMafia aliveMafiaCount
  rw [List.filter_filter, List.countP_eq_length_filter]
  congr 2
  funext p
  exact Bool.and_comm _ _

theorem aliveVillagers_length (players : List Player) :
    (aliveVillagers players).length = aliveOtherCount players := by
  unfold aliveVillagers aliveOtherCount
  rw [List.filter_filter, List.countP_eq_length_filter]
  congr 2
  funext p
  exact Bool.and_comm _ _

theorem dbUpdate_append (g : Game) (a b : List Update) :
    dbUpdate g (a ++ b) = dbUpdate (dbUpdate g a) b := by
  simp [dbUpdate, List.foldl_append]

theorem winnerOf_eq (players : List Player) :
    winnerOf players =
      if aliveMafiaCount players = 0 then some "villagers"
      else if aliveOtherCount players ≤ aliveMafiaCount players then some "mafia"
      else none := by
  unfold winnerOf
  rw [aliveMafia_length, aliveVillagers_length]

theorem checkWinCondition_of_winner (g : Game) (w : String)
    (h : winnerOf g.players = some w) :
    checkWinCondition true g =
      dbUpdate g (awardUpdates g.players w ++ [Update.winner w, Update.state "results"]) := by
  have hw : w ≠ "" := by
    rw [winnerOf_eq] at h
    split_ifs at h <;> simp at h <;> subst h <;> decide
  simp [checkWinCondition, h, hw]

/-- C6. Run by the host, `checkWinCondition` decides by the alive role counts alone: with no
alive mafia the winner is `villagers` (whatever the number of alive non-mafia, zero
included); otherwise, with alive mafia ≥ alive non-mafia, the winner is `mafia`; in both
cases the winner is written together with `state = results`. In the remaining case (at least
one alive mafia, fewer than the alive non-mafia) nothing is written: the game record is
unchanged. -/
theorem checkWinCondition_decides (g : Game) :
    (aliveMafiaCount g.players = 0 →
      (checkWinCondition true g).winner = some "villagers" ∧
      (checkWinCondition true g).state = "results") ∧
    (aliveMafiaCount g.players ≠ 0 →
      aliveOtherCount g.players ≤ aliveMafiaCount g.players →
      (checkWinCondition true g).winner = some "mafia" ∧
      (checkWinCondition true g).state = "results") ∧
    (aliveMafiaCount g.players ≠ 0 →
      aliveMafiaCount g.players < aliveOtherCount g.players →
      checkWinCondition true g = g) := by
  refine ⟨?_, ?_, ?_⟩
  · intro h0
    have hw : winnerOf g.players = some "villagers" := by
      rw [winnerOf_eq, if_pos h0]
    rw [checkWinCondition_of_winner g _ hw, dbUpdate_append]
    exact ⟨rfl, rfl⟩
  · intro h0 hle
    have hw : winnerOf g.players = some "mafia" := by
      rw [winnerOf_eq, if_neg h0, if_pos hle]
    rw [checkWinCondition_of_winner g _ hw, dbUpdate_append]
    exact ⟨rfl, rfl⟩
  · intro h0 hlt
    have hw : winnerOf g.players = none := by
      rw [winnerOf_eq, if_neg h0, if_neg (by omega)]
    simp [checkWinCondition, hw]

theorem checkWinCondition_decides_witness :
    aliveMafiaCount parityGame.players = 1 ∧ aliveOtherCount parityGame.players = 1 ∧
    (checkWinCondition true parityGame).winner = some "mafia" ∧
    (checkWinCondition true parityGame).state = "results" :=
  ⟨by decide, by decide,
    (checkWinCondition_decides parityGame).2.1 (by decide) (by decide)⟩

/-! ## Point awards -/

theorem points_other (l : List Player) (f : Player → Nat) (q : Player)
    (h : q.uid ∉ l.map Player.uid) :
    (l.map (fun p => Update.playerPoints p.uid (f p))).foldl applyToPlayer q = q := by
  induction l with
  | nil => rfl
  | cons a l ih =>
    simp only [List.map_cons, List.mem_cons, not_or] at h
    simp only [List.map_cons, List.foldl_cons, applyToPlayer, if_neg h.1]
    exact ih h.2

theorem points_self (l : List Player) (f : Player → Nat) (q : Player)
    (hnd : (l.map Player.uid).Nodup) (hq : q ∈ l) :
    (l.map (fun p => Update.playerPoints p.uid (f p))).foldl applyToPlayer q =
      { q with points := some (f q) } := by
  induction l with
  | nil => simp at hq
  | cons a l ih =>
    simp only [List.map_cons, List.nodup_cons] at hnd
    simp only [List.map_cons, List.foldl_cons, applyToPlayer]
    by_cases ha : q = a
    · subst ha
      rw [if_pos rfl]
      exact points_other l f _ hnd.1
    · have hql : q ∈ l := by
        rcases List.mem_cons.mp hq with e | e
        · exact absurd e ha
        · exact e
      have hne : q.uid ≠ a.uid := by
        intro e
        exact hnd.1 (e ▸ List.mem_map_of_mem Player.uid hql)
      rw [if_neg hne]
      exact ih hnd.2 hql

theorem uid_not_mem_filter (players : List Player) (pred : Player → Bool) (q : Player)
    (hnd : (players.map Player.uid).Nodup) (hq : q ∈ players) (hp : pred q = false) :
    q.uid ∉ (players.filter pred).map Player.uid := by
  intro h
  obtain ⟨p, hp1, hp2⟩ := List.mem_map.mp h
  rw [List.mem_filter] at hp1
  have : p = q := List.inj_on_of_nodup_map hnd hp1.1 hq hp2
  subst this
  rw [hp] at hp1
  exact absurd hp1.2 (by simp)

theorem nodup_filter_uid (players : List Player) (pred : Player → Bool)
    (hnd : (players.map Player.uid).Nodup) :
    ((players.filter pred).map Player.uid).Nodup :=
  hnd.sublist (List.Sublist.map _ (List.filter_sublist _))

theorem aliveVillagers_eq (players : List Player) :
    aliveVillagers players =
      players.filter (fun p => decide (p.role ≠ "mafia") && p.alive) := by
  unfold aliveVillagers
  rw [List.filter_filter]

theorem aliveMafia_eq (players : List Player) :
    aliveMafia players = players.filter (fun p => decide (p.role = "mafia") && p.alive) := by
  unfold aliveMafia
  rw [List.filter_filter]

theorem award_player (players : List Player) (w : String) (q : Player)
    (hnd : (players.map Player.uid).Nodup) (hq : q ∈ players) :
    (awardUpdates players w).foldl applyToPlayer q = awarded w q := by
  unfold awardUpdates awarded
  by_cases hw : w = "villagers"
  · rw [if_pos hw, if_pos hw, List.foldl_append, aliveVillagers_eq]
    by_cases hr : q.role = "mafia"
    · rw [if_pos hr]
      rw [points_other _ _ q (uid_not_mem_filter _ _ q hnd hq (by simp [hr])),
        points_other _ _ q (uid_not_mem_filter _ _ q hnd hq (by simp [hr]))]
    · rw [if_neg hr]
      by_cases ha : q.alive = true
      · rw [points_self _ _ q (nodup_filter_uid _ _ hnd)
          (List.mem_filter.mpr ⟨hq, by simp [hr, ha]⟩)]
        rw [points_other _ _ { q with points := some (q.points.getD 0 + 10) }
          (uid_not_mem_filter _ _ q hnd hq (by simp [ha]))]
        simp [ha]
      · rw [points_other _ _ q (uid_not_mem_filter _ _ q hnd hq (by simp [ha]))]
        rw [points_self _ _ q (nodup_filter_uid _ _ hnd)
          (List.mem_filter.mpr ⟨hq, by simp [hr, ha]⟩)]
        simp [ha]
  · rw [if_neg hw, if_neg hw, aliveMafia_eq]
    by_cases hc : q.alive ∧ q.role = "mafia"
    · rw [if_pos hc]
      exact points_self _ _ q (nodup_filter_uid _ _ hnd)
        (List.mem_filter.mpr ⟨hq, by simp [hc.1, hc.2]⟩)
    · rw [if_neg hc]
      apply points_other _ _ q (uid_not_mem_filter _ _ q hnd hq _)
      by_cases ha : q.alive = true
      · have hr : q.role ≠ "mafia" := fun e => hc ⟨ha, e⟩
        simp [hr]
      · simp [ha]

/-- C7. In one `checkWinCondition` evaluation that declares winner `w`, player records change
exactly as follows. When `villagers` win: each alive non-mafia player gets points + 10, each
dead non-mafia player points + 5 (a missing points field counting as 0), and every mafia
player is unchanged. When `mafia` wins: each alive mafia player gets points + 15 and every
other player is unchanged. No player's points decrease. -/
theorem checkWinCondition_points (g : Game) (w : String)
    (hnd : (g.players.map Player.uid).Nodup) (hw : winnerOf g.players = some w) :
    (w = "villagers" ∨ w = "mafia") ∧
    (checkWinCondition true g).players = g.players.map (awarded w) ∧
    (∀ p ∈ g.players, w = "villagers" → p.role ≠ "mafia" → p.alive = true →
      awarded w p = { p with points := some (p.points.getD 0 + 10) }) ∧
    (∀ p ∈ g.players, w = "villagers" → p.role ≠ "mafia" → p.alive = false →
      awarded w p = { p with points := some (p.points.getD 0 + 5) }) ∧
    (∀ p ∈ g.players, w = "villagers" → p.role = "mafia" → awarded w p = p) ∧
    (∀ p ∈ g.players, w = "mafia" → p.role = "mafia" → p.alive = true →
      awarded w p = { p with points := some (p.points.getD 0 + 15) }) ∧
    (∀ p ∈ g.players, w = "mafia" → ¬ (p.role = "mafia" ∧ p.alive = true) →
      awarded w p = p) ∧
    (∀ p ∈ g.players, p.points.getD 0 ≤ (awarded w p).points.getD 0) := by
  have hwv : w = "villagers" ∨ w = "mafia" := by
    rw [winnerOf_eq] at hw
    split_ifs at hw <;> simp at hw
    · exact Or.inl hw.symm
    · exact Or.inr hw.symm
  refine ⟨hwv, ?_, ?_, ?_, ?_, ?_, ?_, ?_⟩
  · rw [checkWinCondition_of_winner g w hw, dbUpdate_players]
    apply List.map_congr_left
    intro q hq
    rw [List.foldl_append, award_player _ _ _ hnd hq]
    rfl
  · intro p _ hv hr ha
    simp [awarded, hv, hr, ha]
  · intro p _ hv hr ha
    simp [awarded, hv, hr, ha]
  · intro p _ hv hr
    simp [awarded, hv, hr]
  · intro p _ hv hr ha
    subst hv
    simp [awarded, hr, ha]
  · intro p _ hv hc
    subst hv
    have : ¬ (p.alive = true ∧ p.role = "mafia") := fun h => hc ⟨h.2, h.1⟩
    simp [awarded, this]
  · intro p _
    unfold awarded
    split_ifs <;> simp

theorem checkWinCondition_points_witness :
    winnerOf villagersWinGame.players = some "villagers" ∧
    (checkWinCondition true villagersWinGame).players =
      [⟨"u1", "Ann", "mafia", false, some 15⟩, ⟨"u2", "Bob", "villager", true, some 13⟩,
       ⟨"u3", "Cid", "doctor", false, some 5⟩] :=
  ⟨by decide,
    (checkWinCondition_points villagersWinGame "villagers" (by decide) (by decide)).2.1.trans
      (by decide)⟩

/-! ## Monotonicity of `alive` -/

theorem applyToPlayer_dead (p : Player) (u : Update) (hu : NoRevive u)
    (hp : p.alive = false) : (applyToPlayer p u).alive = false := by
  cases u <;> simp only [applyToPlayer] <;> try split
  all_goals first | exact hp | exact hu

theorem foldl_applyToPlayer_dead (us : List Update) (h : ∀ u ∈ us, NoRevive u) :
    ∀ p : Player, p.alive = false → (us.foldl applyToPlayer p).alive = false := by
  induction us with
  | nil => intro p hp; exact hp
  | cons u us ih =>
    intro p hp
    rw [List.foldl_cons]
    exact ih (fun x hx => h x (List.mem_cons_of_mem _ hx)) _
      (applyToPlayer_dead p u (h u (List.mem_cons_self _ _)) hp)

theorem dbUpdate_dead (g : Game) (us : List Update) (h : ∀ u ∈ us, NoRevive u) (uid : String)
    (hd : aliveOf g uid = some false) : aliveOf (dbUpdate g us) uid = some false := by
  unfold aliveOf at hd ⊢
  rw [dbUpdate_players, lookupPlayer_map _ _ (foldl_applyToPlayer_uid us)]
  cases hl : lookupPlayer g.players uid with
  | none => rw [hl] at hd; simp at hd
  | some p =>
    rw [hl] at hd
    simp only [Option.map_some', Option.some.injEq] at hd ⊢
    exact foldl_applyToPlayer_dead us h p hd

theorem resolveNight_updates (now : Nat → Nat) (g : Game) :
    resolveNight now g = none ∨
      ∃ us, (∀ u ∈ us, NoRevive u) ∧ resolveNight now g = some (dbUpdate g us) := by
  unfold resolveNight
  simp only
  split_ifs
  · exact Or.inr ⟨_, by simp [NoRevive], rfl⟩
  · split
    · exact Or.inl rfl
    · exact Or.inr ⟨_, by simp [NoRevive], rfl⟩
  · exact Or.inr ⟨_, by simp [NoRevive], rfl⟩

theorem resolveDay_updates (now : Nat → Nat) (g : Game) :
    resolveDay now g = none ∨
      ∃ us, (∀ u ∈ us, NoRevive u) ∧ resolveDay now g = some (dbUpdate g us) := by
  unfold resolveDay
  simp only
  split_ifs
  · split
    · exact Or.inl rfl
    · exact Or.inr ⟨_, by simp [NoRevive], rfl⟩
  · exact Or.inr ⟨_, by simp [NoRevive], rfl⟩

theorem checkWinCondition_updates (isHost : Bool) (g : Game) :
    ∃ us, (∀ u ∈ us, NoRevive u) ∧ checkWinCondition isHost g = dbUpdate g us := by
  unfold checkWinCondition
  split_ifs
  · exact ⟨[], by simp, rfl⟩
  · split
    · exact ⟨[], by simp, rfl⟩
    · split_ifs
      · refine ⟨_, ?_, rfl⟩
        intro u hu
        unfold awardUpdates at hu
        split_ifs at hu <;> simp only [List.mem_append, List.mem_map, List.mem_cons,
          List.mem_nil_iff, or_false] at hu
        · rcases hu with (⟨_, _, rfl⟩ | ⟨_, _, rfl⟩) | rfl | rfl <;> trivial
        · rcases hu with ⟨_, _, rfl⟩ | rfl | rfl <;> trivial
      · exact ⟨[], by simp, rfl⟩

theorem runOp_dead (g : Game) (op : Op) (uid : String) (hd : aliveOf g uid = some false) :
    aliveOf (runOp g op) uid = some false := by
  cases op with
  | night now acts =>
    have hd2 : aliveOf { g with actions := acts } uid = some false := hd
    rcases resolveNight_updates now { g with actions := acts } with h | ⟨us, hus, h⟩
    · simp only [runOp, h, Option.getD_none]; exact hd2
    · simp only [runOp, h, Option.getD_some]; exact dbUpdate_dead _ us hus uid hd2
  | day now vs =>
    have hd2 : aliveOf { g with votes := vs } uid = some false := hd
    rcases resolveDay_updates now { g with votes := vs } with h | ⟨us, hus, h⟩
    · simp only [runOp, h, Option.getD_none]; exact hd2
    · simp only [runOp, h, Option.getD_some]; exact dbUpdate_dead _ us hus uid hd2
  | checkWin isHost =>
    obtain ⟨us, hus, h⟩ := checkWinCondition_updates isHost g
    simp only [runOp, h]
    exact dbUpdate_dead _ us hus uid hd

/-- C10. Along every finite sequence of resolution steps (`resolveNight`, `resolveDay`,
`checkWinCondition`, in any order, each with any submitted actions or votes), a player who
is dead before the sequence is dead after it: `alive` never goes from false to true. -/
theorem alive_never_revives (ops : List Op) (g : Game) (uid : String)
    (hd : aliveOf g uid = some false) : aliveOf (runOps g ops) uid = some false := by
  induction ops generalizing g with
  | nil => exact hd
  | cons op ops ih =>
    unfold runOps at ih ⊢
    rw [List.foldl_cons]
    exact ih (runOp g op) (runOp_dead g op uid hd)

theorem alive_never_revives_witness :
    aliveOf villagersWinGame "u3" = some false ∧
    aliveOf (runOps villagersWinGame
      [Op.night (fun _ => 7) [("u1", ⟨"mafia", "u3", 1⟩), ("u3", ⟨"doctor", "u3", 2⟩)],
       Op.checkWin true, Op.day (fun _ => 9) [("u2", "u1")], Op.checkWin true]) "u3" =
      some false :=
  ⟨by decide, alive_never_revives _ villagersWinGame "u3" (by decide)⟩

/-! ## A freshly started game -/

theorem rolePool_length (n : Nat) (hn : 1 ≤ n) : (rolePool n).length = n := by
  have hle := specialCount_le n hn
  rw [rolePool_eq]
  unfold specialCount at hle ⊢
  split_ifs at hle ⊢ <;> simp <;> omega

theorem rolePool_count_mafia (n : Nat) : (rolePool n).count "mafia" = max 1 (n / 5) := by
  rw [rolePool_eq]
  split_ifs <;> simp [List.count_replicate, List.count_cons]

theorem startGame_players (shuffle : List String → List String) (now : Nat → Nat) (g : Game)
    (hpos : 1 ≤ g.players.length) (hnd : (g.players.map Player.uid).Nodup)
    (hlen : g.players.length ≤ (shuffle (rolePool g.players.length)).length) :
    ∃ g', startGame shuffle now g = some g' ∧
      g'.players = List.zipWith (fun p r => { p with role := r, alive := true }) g.players
        (shuffle (rolePool g.players.length)) := by
  obtain ⟨us, hus⟩ := assignUpdates_isSome g.players _ hlen
  refine ⟨dbUpdate g (us ++
      [Update.state "night", Update.phaseStartTime (now 0), Update.phaseDuration 45000,
       Update.actions [], Update.votes [], Update.events []]), ?_, ?_⟩
  · simp only [startGame, hus]
    rw [if_neg (by omega)]
  · rw [dbUpdate_players, ← assignUpdates_players g.players _ us hus hnd]
    apply List.map_congr_left
    intro q _
    simp [List.foldl_append, applyToPlayer]

theorem dealt_counts (ps : List Player) :
    ∀ rs : List String, ps.length = rs.length →
      aliveMafiaCount (List.zipWith (fun p r => { p with role := r, alive := true }) ps rs) =
        rs.count "mafia" ∧
      aliveOtherCount (List.zipWith (fun p r => { p with role := r, alive := true }) ps rs) +
        rs.count "mafia" = rs.length := by
  induction ps with
  | nil =>
    intro rs h
    cases rs with
    | nil => simp [aliveMafiaCount, aliveOtherCount]
    | cons r rs => simp at h
  | cons p ps ih =>
    intro rs h
    cases rs with
    | nil => simp at h
    | cons r rs =>
      obtain ⟨h1, h2⟩ := ih rs (by simpa using h)
      unfold aliveMafiaCount at h1
      unfold aliveOtherCount at h2
      unfold aliveMafiaCount aliveOtherCount
      simp only [ne_eq, decide_not] at h2 ⊢
      by_cases hr : r = "mafia"
      · subst hr
        simp only [List.zipWith_cons_cons, List.countP_cons, List.count_cons, List.length_cons]
        simp only [h1]
        constructor
        · simp
        · simp
          omega
      · have hr2 : ¬ ("mafia" = r) := fun e => hr e.symm
        simp only [List.zipWith_cons_cons, List.countP_cons, List.count_cons, List.length_cons]
        simp only [h1]
        constructor
        · simp [hr]
        · simp [hr]
          omega

theorem dealt_alive (ps : List Player) :
    ∀ rs : List String,
      ∀ q ∈ List.zipWith (fun p r => ({ p with role := r, alive := true } : Player)) ps rs,
        q.alive = true := by
  induction ps with
  | nil => intro rs q hq; simp at hq
  | cons p ps ih =>
    intro rs q hq
    cases rs with
    | nil => simp at hq
    | cons r rs =>
      rw [List.zipWith_cons_cons, List.mem_cons] at hq
      rcases hq with rfl | hq
      · rfl
      · exact ih rs q hq

/-- C11. For every player count N ≥ 1 and every shuffle (any permutation of the pool),
`startGame` succeeds and all its players are alive, with max(1, ⌊N/5⌋) alive mafia and the
other N − max(1, ⌊N/5⌋) alive non-mafia. The winner rule of `checkWinCondition` applied to
these players declares a winner if and only if N ≤ 2, and that winner is `mafia`; for
N ≥ 3 there is at least one alive mafia and strictly fewer alive mafia than alive
non-mafia, so no winner is declared and `checkWinCondition` leaves the game unchanged. -/
theorem fresh_game_winner (N : Nat) (hN : 1 ≤ N) (shuffle : List String → List String)
    (now : Nat → Nat) (g : Game) (hg : g.players.length = N)
    (hnd : (g.players.map Player.uid).Nodup)
    (hperm : (shuffle (rolePool N)).Perm (rolePool N)) :
    ∃ g', startGame shuffle now g = some g' ∧
      (∀ p ∈ g'.players, p.alive = true) ∧
      aliveMafiaCount g'.players = max 1 (N / 5) ∧
      aliveOtherCount g'.players = N - max 1 (N / 5) ∧
      ((∃ w, winnerOf g'.players = some w) ↔ N ≤ 2) ∧
      (N ≤ 2 → winnerOf g'.players = some "mafia") ∧
      (3 ≤ N → 1 ≤ aliveMafiaCount g'.players ∧
        aliveMafiaCount g'.players < aliveOtherCount g'.players ∧
        winnerOf g'.players = none ∧ checkWinCondition true g' = g') := by
  subst hg
  have hlen : (shuffle (rolePool g.players.length)).length = g.players.length := by
    rw [hperm.length_eq, rolePool_length _ hN]
  obtain ⟨g', hstart, hpl⟩ := startGame_players shuffle now g hN hnd (by omega)
  obtain ⟨hm, ho⟩ := dealt_counts g.players _ hlen.symm
  rw [← hpl, hperm.count_eq, rolePool_count_mafia] at hm
  rw [← hpl, hperm.count_eq, rolePool_count_mafia, hlen] at ho
  have ho2 : aliveOtherCount g'.players = g.players.length - max 1 (g.players.length / 5) := by
    omega
  have hw := winnerOf_eq g'.players
  rw [hm, ho2] at hw
  refine ⟨g', hstart, ?_, hm, ho2, ?_, ?_, ?_⟩
  · rw [hpl]
    exact dealt_alive g.players _
  · constructor
    · rintro ⟨w, hww⟩
      by_contra hgt
      rw [if_neg (by omega), if_neg (by omega)] at hw
      rw [hw] at hww
      exact absurd hww (by simp)
    · intro h2
      rw [if_neg (by omega), if_pos (by omega)] at hw
      exact ⟨_, hw⟩
  · intro h2
    rw [if_neg (by omega), if_pos (by omega)] at hw
    exact hw
  · intro h3
    rw [if_neg (by omega), if_neg (by omega)] at hw
    refine ⟨by omega, by omega, hw, ?_⟩
    simp [checkWinCondition, hw]

theorem fresh_game_winner_witness :
    (∃ g', startGame (fun _ => shuffledSix) (fun _ => 7) (nightGame []) = some g' ∧
      (∀ p ∈ g'.players, p.alive = true) ∧
      aliveMafiaCount g'.players = max 1 (6 / 5) ∧
      aliveOtherCount g'.players = 6 - max 1 (6 / 5) ∧
      ((∃ w, winnerOf g'.players = some w) ↔ 6 ≤ 2) ∧
      (6 ≤ 2 → winnerOf g'.players = some "mafia") ∧
      (3 ≤ 6 → 1 ≤ aliveMafiaCount g'.players ∧
        aliveMafiaCount g'.players < aliveOtherCount g'.players ∧
        winnerOf g'.players = none ∧ checkWinCondition true g' = g')) ∧
    (∃ g', startGame (fun _ => shuffledTwo) (fun _ => 7) lobbyGame = some g' ∧
      (∀ p ∈ g'.players, p.alive = true) ∧
      aliveMafiaCount g'.players = max 1 (2 / 5) ∧
      aliveOtherCount g'.players = 2 - max 1 (2 / 5) ∧
      ((∃ w, winnerOf g'.players = some w) ↔ 2 ≤ 2) ∧
      (2 ≤ 2 → winnerOf g'.players = some "mafia") ∧
      (3 ≤ 2 → 1 ≤ aliveMafiaCount g'.players ∧
        aliveMafiaCount g'.players < aliveOtherCount g'.players ∧
        winnerOf g'.players = none ∧ checkWinCondition true g' = g')) :=
  ⟨fresh_game_winner 6 (by decide) (fun _ => shuffledSix) (fun _ => 7) (nightGame []) rfl
      (by decide) (by rw [rolePool_eq]; decide),
    fresh_game_winner 2 (by decide) (fun _ => shuffledTwo) (fun _ => 7) lobbyGame rfl
      (by decide) (by rw [rolePool_eq]; decide)⟩

end Mafia
